import Mathlib

/-!
Verification of the quint-cli decision and audit pipeline.

Shallow embedding of:
  * packages/core/src/config.ts   — policy evaluation (`evaluatePolicy`)
  * packages/core/src/crypto.ts   — `canonicalize`, `publicKeyFingerprint`
  * packages/core/src/risk.ts     — `RiskEngine.score` and the behavior tracker
  * packages/proxy/src/logger.ts  — `AuditLogger.log`
  * the audit store `AuditDb.insertAtomic`
  * the interceptor (`inspectRequest`, `buildDenyResponse`) and the
    `startProxy` parent-message handler
  * the in-memory sliding-window `RateLimiter.check`

External platform primitives (node:crypto Ed25519 sign/verify, SHA-256,
key generation) are not code of this repository; they are taken as
abstract function parameters, with their defining properties as explicit
hypotheses where a claim depends on them.

JavaScript semantics that matter and are modelled faithfully:
  * `JSON.stringify(obj, keyArray)` uses the key array as a property
    filter at every object nesting level, in key-array order;
  * falsiness of the empty string (`if (!toolName)`, `prevSignature ?`,
    `if (argsJson)`);
  * `Array.prototype.sort()` compares strings by code units.
-/

set_option maxRecDepth 8000

namespace Quint

/-- Code-unit comparison of character lists, as used by JavaScript's
default `Array.prototype.sort()` string comparator (restricted to the
Basic Multilingual Plane, where code units and code points agree). -/
def lexLe : List Char → List Char → Bool
  | [], _ => true
  | _ :: _, [] => false
  | a :: as, b :: bs =>
    if a.toNat < b.toNat then true
    else if b.toNat < a.toNat then false
    else lexLe as bs

/-- String comparison by code units (JavaScript `a <= b` on strings). -/
def strLe (a b : String) : Bool := lexLe a.data b.data

-- ── JSON value model ────────────────────────────────────────────

/-- JSON values as produced by `JSON.parse` / consumed by
`JSON.stringify`.  Numbers are restricted to integers, matching the
values the repository actually serializes. -/
inductive Json where
  | null : Json
  | bool : Bool → Json
  | num : Int → Json
  | str : String → Json
  | arr : List Json → Json
  | obj : List (String × Json) → Json
deriving Repr, Inhabited

/-- Decimal digit extraction with a fuel argument (the fuel only makes
the recursion structural; `natDigits` always supplies enough). -/
def natDigitsAux : Nat → Nat → List Char
  | 0, _ => []
  | fuel+1, n =>
    if n < 10 then [Nat.digitChar n]
    else natDigitsAux fuel (n / 10) ++ [Nat.digitChar (n % 10)]

/-- Decimal digits of a natural number, most significant first
(JavaScript `Number::toString` for non-negative integers). -/
def natDigits (n : Nat) : List Char := natDigitsAux (n + 1) n

/-- Decimal representation of an integer (JavaScript `Number::toString`
for integers in the safe range). -/
def intRepr (n : Int) : List Char :=
  if n < 0 then '-' :: natDigits n.natAbs else natDigits n.toNat

/-- Lower-case hex digit. -/
def hexDigitChar (n : Nat) : Char :=
  if n < 10 then Char.ofNat (48 + n) else Char.ofNat (87 + n)

/-- Per-character JSON string escaping, as in ECMA-262 `QuoteJSONString`
(restricted to ASCII, which is all the spec admits in signable views). -/
def escapeChar (c : Char) : List Char :=
  if c = '"' then ['\\', '"']
  else if c = '\\' then ['\\', '\\']
  else if c = '\x08' then ['\\', 'b']
  else if c = '\x0c' then ['\\', 'f']
  else if c = '\n' then ['\\', 'n']
  else if c = '\r' then ['\\', 'r']
  else if c = '\t' then ['\\', 't']
  else if c.toNat < 32 then
    ['\\', 'u', '0', '0', hexDigitChar (c.toNat / 16), hexDigitChar (c.toNat % 16)]
  else [c]

/-- Escape every character of a string body. -/
def escapeStr : List Char → List Char
  | [] => []
  | c :: cs => escapeChar c ++ escapeStr cs

/-- `QuoteJSONString`: quoted, escaped JSON string literal. -/
def quoteJSONString (s : String) : String :=
  ⟨'"' :: escapeStr s.data ++ ['"']⟩

/-- Render the member list of a JSON object.  With a replacer key list
`K` (JavaScript `JSON.stringify(v, K)`), members are the keys of `K`
that exist in the object, in `K` order — this is the ECMA-262
`PropertyList` filter, applied at every nesting depth.  Without a
replacer, members appear in object order. -/
def renderMembers (K : Option (List String)) (rendered : List (String × String)) : List String :=
  match K with
  | some ks => ks.filterMap (fun k =>
      (rendered.lookup k).map (fun rv => quoteJSONString k ++ ":" ++ rv))
  | none => rendered.map (fun kv => quoteJSONString kv.1 ++ ":" ++ kv.2)

mutual

/-- `JSON.stringify` with an optional replacer key array `K`
(ECMA-262 `SerializeJSONProperty`), for the value subset in `Json`. -/
def stringifyVal (K : Option (List String)) : Json → String
  | .null => "null"
  | .bool b => cond b "true" "false"
  | .num n => ⟨intRepr n⟩
  | .str s => quoteJSONString s
  | .arr xs => "[" ++ String.intercalate "," (stringifyElems K xs) ++ "]"
  | .obj fs => "\x7b" ++ String.intercalate "," (renderMembers K (renderFields K fs)) ++ "\x7d"

/-- Serialize each array element (arrays are never filtered by a
replacer array). -/
def stringifyElems (K : Option (List String)) : List Json → List String
  | [] => []
  | x :: xs => stringifyVal K x :: stringifyElems K xs

/-- Serialize each object field's value, keeping the key. -/
def renderFields (K : Option (List String)) : List (String × Json) → List (String × String)
  | [] => []
  | (k, v) :: fs => (k, stringifyVal K v) :: renderFields K fs

end

/-- `JSON.stringify(v)` without a replacer. -/
def stringifyPlain (v : Json) : String := stringifyVal none v

/-- The keys of a JSON object field list. -/
def keysOf (fs : List (String × Json)) : List String := fs.map Prod.fst

/-- Insert into a `strLe`-sorted list. -/
def insertSorted (x : String) : List String → List String
  | [] => [x]
  | y :: ys => if strLe x y then x :: y :: ys else y :: insertSorted x ys

/-- Sort a key list ascending by code units.  `Array.prototype.sort()`
with the default comparator produces exactly this order; since a
JavaScript object never has duplicate keys, any correct sort yields the
same list. -/
def sortKeys : List String → List String
  | [] => []
  | x :: xs => insertSorted x (sortKeys xs)

/-- crypto.ts `canonicalize(obj)`:
`JSON.stringify(obj, Object.keys(obj).sort())`.  The sorted top-level
key list acts as the replacer, i.e. as a property filter for every
nesting level. -/
def canonicalize (fs : List (String × Json)) : String :=
  stringifyVal (some (sortKeys (keysOf fs))) (.obj fs)

-- ── Glob matching ───────────────────────────────────────────────

/-- Modelled from the spec: the glob matcher (`globMatch`) whose
definition is absent from the sources (risk.ts and the test suite import
it from config.js, which does not define it).  Per the spec's glob
semantics — translate the pattern to a regex anchored at both ends,
`*` → `.*`, `?` → `.`, all other regex metacharacters escaped (hence
literal), matching case-sensitive, empty pattern matches only the empty
string — expressed as the equivalent structural matcher.  `globStarAux`
implements `.*`: it tries the continuation on every suffix. -/
def globStarAux (next : List Char → Bool) : List Char → Bool
  | [] => next []
  | c :: s => next (c :: s) || globStarAux next s

/-- Modelled from the spec: the anchored glob matcher over character
lists (see `globStarAux` for the provenance note). -/
def globMatchL : List Char → List Char → Bool
  | [], s => s.isEmpty
  | '*' :: ps, s => globStarAux (globMatchL ps) s
  | '?' :: ps, s =>
    (match s with
     | [] => false
     | _ :: s' => globMatchL ps s')
  | p :: ps, s =>
    (match s with
     | [] => false
     | c :: s' => p == c && globMatchL ps s')

/-- Modelled from the spec: `globMatch(pattern, s)`. -/
def globMatch (pattern s : String) : Bool := globMatchL pattern.data s.data

-- ── Policy model (types.ts) ─────────────────────────────────────

/-- types.ts `Action`. -/
inductive Action where
  | allow : Action
  | deny : Action
deriving Repr, DecidableEq

/-- types.ts `Verdict`. -/
inductive Verdict where
  | allow : Verdict
  | deny : Verdict
  | passthrough : Verdict
  | rate_limited : Verdict
deriving Repr, DecidableEq

/-- In the source both types are string literals and an `Action` is
returned where a `Verdict` is expected; this is that inclusion. -/
def Action.toVerdict : Action → Verdict
  | .allow => .allow
  | .deny => .deny

/-- types.ts `ToolRule`. -/
structure ToolRule where
  tool : String
  action : Action
deriving Repr, DecidableEq

/-- types.ts `ServerPolicy`. -/
structure ServerPolicy where
  server : String
  default_action : Action
  tools : List ToolRule
deriving Repr, DecidableEq

/-- types.ts `PolicyConfig` (the optional `rate_limit` block is not
consulted by any of the functions under verification and is omitted
from the record; it is absent from the policies in all claims). -/
structure PolicyConfig where
  version : Int
  data_dir : String
  log_level : String
  servers : List ServerPolicy
deriving Repr, DecidableEq

/-- config.ts `evaluatePolicy`.  Note: the shipped source selects a
server policy by exact string equality (`sp.server === serverName`) or
the literal `"*"`, and a tool rule by exact equality or the literal
`"*"` — there is no glob matching in this function.  The emptiness test
on `toolName` reflects JavaScript falsiness of `""`. -/
def evaluatePolicy (config : PolicyConfig) (serverName : String)
    (toolName : Option String) : Verdict :=
  match config.servers.find? (fun sp => sp.server == serverName || sp.server == "*") with
  | none => .deny
  | some sp =>
    match toolName with
    | none => .passthrough
    | some t =>
      if t = "" then .passthrough
      else
        match sp.tools.find? (fun rule => rule.tool == t || rule.tool == "*") with
        | some rule => rule.action.toVerdict
        | none => sp.default_action.toVerdict

-- ── Strings of numbers ──────────────────────────────────────────

/-- JavaScript template-literal rendering of an integer. -/
def intToString (n : Int) : String := ⟨intRepr n⟩

/-- JavaScript template-literal rendering of a natural number. -/
def natToString (n : Nat) : String := ⟨natDigits n⟩

/-- Option-valued string, as serialized into a JSON value
(`null` for JavaScript `null`). -/
def optStrJson : Option String → Json
  | none => .null
  | some s => .str s

/-- Option-valued integer, as serialized into a JSON value. -/
def optIntJson : Option Int → Json
  | none => .null
  | some n => .num n

/-- `Verdict` as the string literal the source stores. -/
def verdictStr : Verdict → String
  | .allow => "allow"
  | .deny => "deny"
  | .passthrough => "passthrough"
  | .rate_limited => "rate_limited"

/-- `Action` as the string literal the source stores. -/
def actionStr : Action → String
  | .allow => "allow"
  | .deny => "deny"

-- ── Policy as a JSON object (for `canonicalize`) ────────────────

/-- A tool rule as the JSON object it is parsed from. -/
def toolRuleJson (r : ToolRule) : Json :=
  .obj [("tool", .str r.tool), ("action", .str (actionStr r.action))]

/-- A server policy as the JSON object it is parsed from. -/
def serverPolicyJson (sp : ServerPolicy) : Json :=
  .obj [("server", .str sp.server),
        ("default_action", .str (actionStr sp.default_action)),
        ("tools", .arr (sp.tools.map toolRuleJson))]

/-- A policy configuration as the JSON object it is parsed from
(field order follows the declared/shipped policy files; `canonicalize`
sorts the keys anyway, so only the key set matters). -/
def policyConfigJson (p : PolicyConfig) : List (String × Json) :=
  [("version", .num p.version),
   ("data_dir", .str p.data_dir),
   ("log_level", .str p.log_level),
   ("servers", .arr (p.servers.map serverPolicyJson))]

-- ── Audit ledger model (logger.ts + AuditDb.insertAtomic) ───────

/-- types.ts `AuditEntry`, without the store-assigned `id`: in the
ledger model the id of the entry at list index `i` is `i + 1`
(SQLite `AUTOINCREMENT` on an append-only table). -/
structure AuditEntry where
  timestamp : String
  server_name : String
  direction : String
  method : String
  message_id : Option String
  tool_name : Option String
  arguments_json : Option String
  response_json : Option String
  verdict : Verdict
  risk_score : Option Int
  risk_level : Option String
  policy_hash : String
  prev_hash : String
  nonce : String
  signature : String
  public_key : String
deriving Repr, DecidableEq

/-- The options record passed to `AuditLogger.log`. -/
structure LogOpts where
  serverName : String
  direction : String
  method : String
  messageId : Option String
  toolName : Option String
  argumentsJson : Option String
  responseJson : Option String
  verdict : Verdict
  riskScore : Option Int := none
  riskLevel : Option String := none
deriving Repr, DecidableEq

/-- The state an `AuditLogger` instance carries. -/
structure LoggerCfg where
  privateKey : String
  publicKey : String
  policyHash : String
deriving Repr, DecidableEq

/-- logger.ts `AuditLogger` constructor: pins
`policyHash = sha256(canonicalize(policy))`.  `hash` abstracts the
external SHA-256 primitive. -/
def mkAuditLogger (hash : String → String) (privateKey publicKey : String)
    (policy : PolicyConfig) : LoggerCfg :=
  ⟨privateKey, publicKey, hash (canonicalize (policyConfigJson policy))⟩

/-- The `signable` object built inside `AuditLogger.log`, in source
field order (every record field except `id` and `signature`). -/
def signableFields (timestamp : String) (o : LogOpts) (policyHash prevHash nonce publicKey : String) :
    List (String × Json) :=
  [("timestamp", .str timestamp),
   ("server_name", .str o.serverName),
   ("direction", .str o.direction),
   ("method", .str o.method),
   ("message_id", optStrJson o.messageId),
   ("tool_name", optStrJson o.toolName),
   ("arguments_json", optStrJson o.argumentsJson),
   ("response_json", optStrJson o.responseJson),
   ("verdict", .str (verdictStr o.verdict)),
   ("risk_score", optIntJson o.riskScore),
   ("risk_level", optStrJson o.riskLevel),
   ("policy_hash", .str policyHash),
   ("prev_hash", .str prevHash),
   ("nonce", .str nonce),
   ("public_key", .str publicKey)]

/-- The signable view of a stored record: every field except `id` and
`signature`, keyed as in the database row. -/
def signableView (e : AuditEntry) : List (String × Json) :=
  [("timestamp", .str e.timestamp),
   ("server_name", .str e.server_name),
   ("direction", .str e.direction),
   ("method", .str e.method),
   ("message_id", optStrJson e.message_id),
   ("tool_name", optStrJson e.tool_name),
   ("arguments_json", optStrJson e.arguments_json),
   ("response_json", optStrJson e.response_json),
   ("verdict", .str (verdictStr e.verdict)),
   ("risk_score", optIntJson e.risk_score),
   ("risk_level", optStrJson e.risk_level),
   ("policy_hash", .str e.policy_hash),
   ("prev_hash", .str e.prev_hash),
   ("nonce", .str e.nonce),
   ("public_key", .str e.public_key)]

/-- The builder closure `AuditLogger.log` passes to `insertAtomic`.
`hash`/`sign` abstract the external SHA-256 / Ed25519 primitives;
`timestamp` and `nonce` are the nondeterministic clock/UUID inputs.
`prevSignature ? sha256(prevSignature) : ""` — note JavaScript
falsiness of the empty string. -/
def loggerBuild (hash : String → String) (sign : String → String → String)
    (cfg : LoggerCfg) (timestamp nonce : String) (o : LogOpts)
    (prevSignature : Option String) : AuditEntry :=
  let prevHash := match prevSignature with
    | none => ""
    | some s => if s = "" then "" else hash s
  let canonical := canonicalize (signableFields timestamp o cfg.policyHash prevHash nonce cfg.publicKey)
  let signature := sign canonical cfg.privateKey
  { timestamp := timestamp
    server_name := o.serverName
    direction := o.direction
    method := o.method
    message_id := o.messageId
    tool_name := o.toolName
    arguments_json := o.argumentsJson
    response_json := o.responseJson
    verdict := o.verdict
    risk_score := o.riskScore
    risk_level := o.riskLevel
    policy_hash := cfg.policyHash
    prev_hash := prevHash
    nonce := nonce
    signature := signature
    public_key := cfg.publicKey }

/-- `AuditDb.insertAtomic`: in one serialized transaction, read the
highest-id record's signature (or null), run the builder, append the
built record; returns the new ledger and the assigned row id. -/
def insertAtomic (ledger : List AuditEntry) (buildEntry : Option String → AuditEntry) :
    List AuditEntry × Nat :=
  let prev := (ledger.getLast?).map (fun e => e.signature)
  (ledger ++ [buildEntry prev], ledger.length + 1)

/-- `AuditLogger.log`: one atomic append through `insertAtomic`. -/
def loggerLog (hash : String → String) (sign : String → String → String)
    (cfg : LoggerCfg) (timestamp nonce : String) (o : LogOpts)
    (ledger : List AuditEntry) : List AuditEntry × Nat :=
  insertAtomic ledger (loggerBuild hash sign cfg timestamp nonce o)

/-- One append in a run: which logger instance performed it (loggers may
differ — several proxy instances can share one database), at which
timestamp, with which nonce, logging which options. -/
structure AppendStep where
  cfg : LoggerCfg
  timestamp : String
  nonce : String
  opts : LogOpts

/-- A ledger produced from empty by a sequence of `AuditLogger.log`
appends (the database serializes the `insertAtomic` transactions, so
any concurrent execution is some such sequence). -/
def runAppends (hash : String → String) (sign : String → String → String)
    (steps : List AppendStep) : List AuditEntry :=
  steps.foldl (fun led st => (loggerLog hash sign st.cfg st.timestamp st.nonce st.opts led).1) []

-- ── publicKeyFingerprint (crypto.ts) and the SPKI PEM shape ─────

/-- JavaScript `\s` on the ASCII range. -/
def isJsWS (c : Char) : Bool :=
  c = ' ' || c = '\t' || c = '\n' || c = '\r' || c = '\x0b' || c = '\x0c'

/-- Remove the first occurrence of `pat` (JavaScript
`String.prototype.replace` with a non-global literal pattern and empty
replacement). -/
def removeFirstL (pat : List Char) : List Char → List Char
  | [] => []
  | c :: rest =>
    if pat.isPrefixOf (c :: rest) then (c :: rest).drop pat.length
    else c :: removeFirstL pat rest

/-- crypto.ts `publicKeyFingerprint`: strip the PEM armor lines and all
whitespace, then take the first 16 characters of the base64 body. -/
def publicKeyFingerprint (publicKeyPem : String) : String :=
  let body := (removeFirstL "-----END PUBLIC KEY-----".data
      (removeFirstL "-----BEGIN PUBLIC KEY-----".data publicKeyPem.data)).filter
      (fun c => !isJsWS c)
  ⟨body.take 16⟩

/-- The standard base64 alphabet. -/
def base64Alphabet : List Char :=
  ['A','B','C','D','E','F','G','H','I','J','K','L','M','N','O','P',
   'Q','R','S','T','U','V','W','X','Y','Z',
   'a','b','c','d','e','f','g','h','i','j','k','l','m','n','o','p',
   'q','r','s','t','u','v','w','x','y','z',
   '0','1','2','3','4','5','6','7','8','9','+','/']

/-- Base64 digit for a 6-bit value. -/
def b64Char (n : Nat) : Char := base64Alphabet.getD n 'A'

/-- Standard base64 encoding of a byte list (values `< 256`), with
padding — what node's PEM export uses for the DER body. -/
def base64Encode : List Nat → List Char
  | [] => []
  | [a] => [b64Char (a / 4), b64Char (a % 4 * 16), '=', '=']
  | [a, b] => [b64Char (a / 4), b64Char (a % 4 * 16 + b / 16), b64Char (b % 16 * 4), '=']
  | a :: b :: c :: rest =>
    b64Char (a / 4) :: b64Char (a % 4 * 16 + b / 16) ::
      b64Char (b % 16 * 4 + c / 64) :: b64Char (c % 64) :: base64Encode rest

/-- The fixed 12-byte SubjectPublicKeyInfo DER prelude for Ed25519
(RFC 8410): SEQUENCE(42) SEQUENCE(5) OID 1.3.101.112, BIT STRING(33)
with zero unused bits.  Every Ed25519 SPKI starts with exactly these
bytes, followed by the 32 raw key bytes. -/
def ed25519SpkiHeader : List Nat :=
  [0x30, 0x2a, 0x30, 0x05, 0x06, 0x03, 0x2b, 0x65, 0x70, 0x03, 0x21, 0x00]

/-- The SPKI PEM node's `generateKeyPairSync("ed25519", {publicKeyEncoding:
{type: "spki", format: "pem"}})` emits for a raw 32-byte public key: armor
header, one 60-character base64 line (44 DER bytes, under the 64-column
wrap), armor footer, trailing newline. -/
def spkiPem (raw : List Nat) : String :=
  "-----BEGIN PUBLIC KEY-----\n" ++ ⟨base64Encode (ed25519SpkiHeader ++ raw)⟩ ++
    "\n-----END PUBLIC KEY-----\n"

-- ── Risk engine (risk.ts) ───────────────────────────────────────

/-- risk.ts `RiskPattern`. -/
structure RiskPattern where
  tool : String
  baseScore : Int
deriving Repr, DecidableEq

/-- risk.ts `DEFAULT_TOOL_RISKS`, in source order. -/
def DEFAULT_TOOL_RISKS : List RiskPattern :=
  [⟨"Delete*", 80⟩, ⟨"Remove*", 80⟩, ⟨"Rm*", 80⟩,
   ⟨"Write*", 50⟩, ⟨"Create*", 40⟩, ⟨"Update*", 45⟩, ⟨"Edit*", 45⟩,
   ⟨"*Sql*", 60⟩, ⟨"*Query*", 40⟩, ⟨"*Database*", 55⟩,
   ⟨"*Execute*", 70⟩, ⟨"*Run*", 65⟩, ⟨"*Shell*", 75⟩, ⟨"*Bash*", 75⟩, ⟨"*Command*", 70⟩,
   ⟨"*Fetch*", 35⟩, ⟨"*Http*", 35⟩, ⟨"*Request*", 35⟩,
   ⟨"Read*", 10⟩, ⟨"Get*", 10⟩, ⟨"List*", 5⟩, ⟨"Search*", 10⟩]

/-- JavaScript `\w` (ASCII word character). -/
def isWordChar (c : Char) : Bool := c.isAlpha || c.isDigit || c = '_'

/-- Strip a lowercase needle from the head of a haystack,
case-insensitively (JavaScript `/i`). -/
def stripCI : List Char → List Char → Option (List Char)
  | [], s => some s
  | _ :: _, [] => none
  | w :: ws, c :: cs => if c.toLower = w then stripCI ws cs else none

/-- `\b` to the left of a word character: start of input or a non-word
character before the match. -/
def boundaryBefore : Option Char → Bool
  | none => true
  | some c => !isWordChar c

/-- `\b` to the right of a word character: end of input or a non-word
character after the match. -/
def boundaryAfter : List Char → Bool
  | [] => true
  | c :: _ => !isWordChar c

/-- Run a position test (given the previous character and the remaining
suffix) at every position of the input — unanchored regex search. -/
def scanMatch (test : Option Char → List Char → Bool) : Option Char → List Char → Bool
  | prev, [] => test prev []
  | prev, c :: s => test prev (c :: s) || scanMatch test (some c) s

/-- Position test for `/\bw\b/i` where `w` is a lowercase word made of
word characters. -/
def wordTest (w : String) (prev : Option Char) (s : List Char) : Bool :=
  boundaryBefore prev &&
    (match stripCI w.data s with
     | some rest => boundaryAfter rest
     | none => false)

/-- `/\bw\b/i.test(s)`. -/
def matchWord (w : String) (s : String) : Bool := scanMatch (wordTest w) none s.data

/-- Position test for `/\brm\s+-rf\b/i`. -/
def rmRfTest (prev : Option Char) (s : List Char) : Bool :=
  boundaryBefore prev &&
    (match stripCI "rm".data s with
     | some r1 =>
       let sp := r1.takeWhile isJsWS
       let r2 := r1.dropWhile isJsWS
       !sp.isEmpty &&
         (match stripCI "-rf".data r2 with
          | some r3 => boundaryAfter r3
          | none => false)
     | none => false)

/-- `/\brm\s+-rf\b/i.test(s)`. -/
def matchRmRf (s : String) : Bool := scanMatch rmRfTest none s.data

/-- Position test for the `\.env` alternative of
`/\b(\.env|credentials)\b/i`: `\b` before `.` demands a word character
immediately before the match. -/
def dotEnvTest (prev : Option Char) (s : List Char) : Bool :=
  (match prev with
   | some c => isWordChar c
   | none => false) &&
    (match stripCI ".env".data s with
     | some rest => boundaryAfter rest
     | none => false)

/-- `/\b(\.env|credentials)\b/i.test(s)`. -/
def matchDotEnvCred (s : String) : Bool :=
  scanMatch dotEnvTest none s.data || matchWord "credentials" s

/-- A keyword entry of risk.ts `DANGEROUS_ARG_KEYWORDS`: the regex
source text (used in reason strings), its matcher, and its boost. -/
structure ArgKeyword where
  source : String
  test : String → Bool
  boost : Int

/-- risk.ts `DANGEROUS_ARG_KEYWORDS`, in source order, each regex
embedded as an executable matcher. -/
def DANGEROUS_ARG_KEYWORDS : List ArgKeyword :=
  [⟨"\\bdrop\\b", matchWord "drop", 30⟩,
   ⟨"\\bdelete\\b", matchWord "delete", 25⟩,
   ⟨"\\btruncate\\b", matchWord "truncate", 25⟩,
   ⟨"\\brm\\s+-rf\\b", matchRmRf, 30⟩,
   ⟨"\\bformat\\b", matchWord "format", 20⟩,
   ⟨"\\b(sudo|chmod|chown)\\b",
     fun s => matchWord "sudo" s || matchWord "chmod" s || matchWord "chown" s, 25⟩,
   ⟨"\\bpassword\\b", matchWord "password", 15⟩,
   ⟨"\\bsecret\\b", matchWord "secret", 15⟩,
   ⟨"\\btoken\\b", matchWord "token", 10⟩,
   ⟨"\\b(\\.env|credentials)\\b", matchDotEnvCred, 20⟩]

/-- risk.ts `RiskThresholds`. -/
structure RiskThresholds where
  flag : Int
  deny : Int
  revokeAfter : Int
  windowMs : Int
deriving Repr, DecidableEq

/-- risk.ts `DEFAULT_THRESHOLDS`. -/
def DEFAULT_THRESHOLDS : RiskThresholds := ⟨60, 85, 5, 5 * 60 * 1000⟩

/-- risk.ts `RiskScore`. -/
structure RiskScore where
  score : Int
  baseScore : Int
  argBoost : Int
  behaviorBoost : Int
  level : String
  reasons : List String
deriving Repr, DecidableEq

/-- In-memory behavior history: subject id → timestamps of high-risk
actions (the `BehaviorTracker` map; `startProxy` constructs
`new RiskEngine()` without a `BehaviorDb`, so the in-memory branch is
the live one). -/
abbrev Hist := List (String × List Int)

/-- `Map.prototype.get` with `?? []`. -/
def mapGet (m : Hist) (k : String) : List Int :=
  ((m.find? (fun e => e.1 == k)).map (fun e => e.2)).getD []

/-- Functional `Map.prototype.set`. -/
def mapSet : Hist → String → List Int → Hist
  | [], k, v => [(k, v)]
  | (k', v') :: rest, k, v =>
    if k' == k then (k, v) :: rest else (k', v') :: mapSet rest k v

/-- Functional `Map.prototype.delete`. -/
def mapDelete (m : Hist) (k : String) : Hist := m.filter (fun e => !(e.1 == k))

/-- `BehaviorTracker.pruneInMemory`: keep only entries strictly newer
than `now − windowMs`, writing back (or deleting an emptied key);
returns the surviving entries and the updated map. -/
def pruneInMemory (windowMs now : Int) (hist : Hist) (subjectId : String) :
    List Int × Hist :=
  let cutoff := now - windowMs
  let entries := (mapGet hist subjectId).filter (fun t => decide (cutoff < t))
  (entries, if entries.isEmpty then mapDelete hist subjectId else mapSet hist subjectId entries)

/-- `BehaviorTracker.record` (in-memory branch): prune, then push `now`. -/
def trackerRecord (windowMs now : Int) (hist : Hist) (subjectId : String) : Hist :=
  let pr := pruneInMemory windowMs now hist subjectId
  mapSet pr.2 subjectId (pr.1 ++ [now])

/-- `BehaviorTracker.count` (in-memory branch): prune, then count. -/
def trackerCount (windowMs now : Int) (hist : Hist) (subjectId : String) : Nat × Hist :=
  let pr := pruneInMemory windowMs now hist subjectId
  (pr.1.length, pr.2)

/-- risk.ts `RiskEngine` (thresholds and custom patterns; behavior
state is passed explicitly). -/
structure RiskEngine where
  thresholds : RiskThresholds := DEFAULT_THRESHOLDS
  customPatterns : List RiskPattern := []

/-- `RiskEngine.score`, with the clock and behavior state explicit.
Returns the `RiskScore` and the updated behavior history. -/
def riskScoreFn (eng : RiskEngine) (hist : Hist) (now : Int) (toolName : String)
    (argsJson : Option String) (subjectId : String) : RiskScore × Hist :=
  let allPatterns := eng.customPatterns ++ DEFAULT_TOOL_RISKS
  let patMatch := allPatterns.find? (fun p => globMatch p.tool toolName)
  let baseScore : Int := match patMatch with
    | some p => p.baseScore
    | none => 20
  let reasons0 : List String := match patMatch with
    | some p => ["tool \"" ++ toolName ++ "\" matches pattern \"" ++ p.tool ++
        "\" (base=" ++ intToString p.baseScore ++ ")"]
    | none => ["tool \"" ++ toolName ++ "\" — no pattern match, using default base score"]
  let argsActive := match argsJson with
    | none => false
    | some a => !(a == "")
  let argFold := if argsActive then
      DANGEROUS_ARG_KEYWORDS.foldl (fun acc kw =>
        if kw.test (argsJson.getD "") then
          (acc.1 + kw.boost,
           acc.2 ++ ["argument contains \"" ++ kw.source ++ "\" (+" ++ intToString kw.boost ++ ")"])
        else acc) ((0 : Int), ([] : List String))
    else ((0 : Int), ([] : List String))
  let cnt := trackerCount eng.thresholds.windowMs now hist subjectId
  let recentCount := cnt.1
  let behaviorBoost : Int := if recentCount > 0 then (recentCount : Int) * 5 else 0
  let behReasons : List String := if recentCount > 0 then
      [natToString recentCount ++ " high-risk action(s) in window (+" ++ intToString behaviorBoost ++ ")"]
    else []
  let raw := baseScore + argFold.1 + behaviorBoost
  let score := min 100 (max 0 raw)
  let level := if score ≥ eng.thresholds.deny then "critical"
    else if score ≥ eng.thresholds.flag then "high"
    else if score ≥ 30 then "medium"
    else "low"
  let hist2 := if score ≥ eng.thresholds.flag then
      trackerRecord eng.thresholds.windowMs now cnt.2 subjectId
    else cnt.2
  ({ score := score, baseScore := baseScore, argBoost := argFold.1,
     behaviorBoost := behaviorBoost, level := level,
     reasons := reasons0 ++ argFold.2 ++ behReasons }, hist2)

/-- risk.ts `RiskEngine.evaluate` result. -/
inductive RiskAction where
  | allow : RiskAction
  | flag : RiskAction
  | deny : RiskAction
deriving Repr, DecidableEq

/-- risk.ts `RiskEngine.evaluate`. -/
def riskEvaluate (eng : RiskEngine) (risk : RiskScore) : RiskAction :=
  if risk.score ≥ eng.thresholds.deny then .deny
  else if risk.score ≥ eng.thresholds.flag then .flag
  else .allow

/-- risk.ts `RiskEngine.shouldRevoke` (counting prunes the state). -/
def shouldRevoke (eng : RiskEngine) (hist : Hist) (now : Int) (subjectId : String) :
    Bool × Hist :=
  let cnt := trackerCount eng.thresholds.windowMs now hist subjectId
  (decide ((cnt.1 : Int) ≥ eng.thresholds.revokeAfter), cnt.2)

-- ── Rate limiter (in-memory sliding window) ─────────────────────

/-- `RateLimiterOptions`. -/
structure RateLimiterOptions where
  rpm : Int
  burst : Int
deriving Repr, DecidableEq

/-- The limiter's `DEFAULT_OPTIONS`. -/
def RATE_DEFAULT_OPTIONS : RateLimiterOptions := ⟨60, 10⟩

/-- `RateLimiter` state: per-key timestamp windows, per-key rpm
overrides, defaults. -/
structure RateLimiter where
  windows : Hist
  overrides : List (String × Int)
  defaults : RateLimiterOptions
deriving Repr, DecidableEq

/-- `RateLimitResult`. -/
structure RateLimitResult where
  allowed : Bool
  used : Int
  limit : Int
  retryAfterSecs : Int
deriving Repr, DecidableEq

/-- Per-key override lookup (`Map.prototype.get`). -/
def intMapGet? (m : List (String × Int)) (k : String) : Option Int :=
  (m.find? (fun e => e.1 == k)).map (fun e => e.2)

/-- `RateLimiter.check`, with the clock explicit.  The front-of-deque
prune (`while timestamps[0] <= cutoff shift`) is `dropWhile`; ceiling
division `Math.ceil(x / 1000)` on integers is `(x + 999).ediv 1000`
(floor of `(x+999)/1000` equals the ceiling of `x/1000` for every
integer `x`).  `headD 0` stands for `timestamps[0]`, which the source
only reads when the pruned window is non-empty (any positive cap). -/
def rateCheck (rl : RateLimiter) (key : String) (now : Int) :
    RateLimitResult × RateLimiter :=
  let cutoff := now - 60000
  let ts1 := (mapGet rl.windows key).dropWhile (fun t => decide (t ≤ cutoff))
  let rpm := (intMapGet? rl.overrides key).getD rl.defaults.rpm
  let limit := rpm + rl.defaults.burst
  let used : Int := ts1.length
  if used ≥ limit then
    let oldestTs := ts1.headD 0
    let retryAfterMs := oldestTs + 60000 - now
    let retryAfterSecs := max 1 ((retryAfterMs + 999).ediv 1000)
    (⟨false, used, limit, retryAfterSecs⟩, { rl with windows := mapSet rl.windows key ts1 })
  else
    (⟨true, used + 1, limit, 0⟩, { rl with windows := mapSet rl.windows key (ts1 ++ [now]) })

-- ── Interceptor and the startProxy parent-message handler ───────

/-- types.ts `isJsonRpcRequest` on a parsed value. -/
def isJsonRpcRequestJ : Json → Bool
  | .obj fs =>
    (match fs.lookup "jsonrpc" with
     | some (.str v) => v == "2.0"
     | _ => false) &&
      (match fs.lookup "method" with
       | some (.str _) => true
       | _ => false)
  | _ => false

/-- The `method` string of a request object (`""` outside the request
branch, where the source never reads it). -/
def methodOf : Json → String
  | .obj fs =>
    (match fs.lookup "method" with
     | some (.str m) => m
     | _ => "")
  | _ => ""

/-- types.ts `isToolCallRequest`. -/
def isToolCallRequestJ (j : Json) : Bool := methodOf j == "tools/call"

mutual

/-- JavaScript `String(v)` on the JSON primitives that occur as JSON-RPC
ids (objects/arrays as ids are outside the verified fragment and use the
array-join rendering, where `null` elements render empty). -/
def jsToStringPrim : Json → String
  | .str s => s
  | .num n => intToString n
  | .bool b => cond b "true" "false"
  | .null => "null"
  | .obj _ => "[object Object]"
  | .arr xs => String.intercalate "," (jsToStringElems xs)

/-- `Array.prototype.join` element rendering. -/
def jsToStringElems : List Json → List String
  | [] => []
  | .null :: xs => "" :: jsToStringElems xs
  | x :: xs => jsToStringPrim x :: jsToStringElems xs

end

/-- The interceptor's id extraction:
`"id" in obj && obj.id != null ? String(obj.id) : null`. -/
def extractIdJ : Json → Option String
  | .obj fs =>
    (match fs.lookup "id" with
     | none => none
     | some .null => none
     | some v => some (jsToStringPrim v))
  | _ => none

/-- types.ts `extractToolInfo` on a parsed request: `params.name` must
be a truthy string (the non-string truthy cases are outside the verified
fragment); `params.arguments ?? {}`. -/
def extractToolInfoJ (j : Json) : Option (String × Json) :=
  if !isToolCallRequestJ j then none
  else match j with
    | .obj fs =>
      (match fs.lookup "params" with
       | some (.obj ps) =>
         (match ps.lookup "name" with
          | some (.str n) =>
            if n = "" then none
            else
              let args := match ps.lookup "arguments" with
                | none => .obj []
                | some .null => .obj []
                | some v => v
              some (n, args)
          | _ => none)
       | _ => none)
    | _ => none

/-- interceptor `InspectionResult`. -/
structure InspectionResult where
  message : Option Json
  verdict : Verdict
  toolName : Option String
  argumentsJson : Option String
  method : String
  messageId : Option String

/-- interceptor `inspectRequest`, on the already-parsed line (`none`
models a `JSON.parse` failure). -/
def inspectRequestJ (parsed : Option Json) (serverName : String) (policy : PolicyConfig) :
    InspectionResult :=
  match parsed with
  | none => ⟨none, .passthrough, none, none, "unknown", none⟩
  | some j =>
    if !isJsonRpcRequestJ j then ⟨some j, .passthrough, none, none, "unknown", extractIdJ j⟩
    else
      let toolInfo := extractToolInfoJ j
      let toolName := toolInfo.map (fun ti => ti.1)
      let argumentsJson := toolInfo.map (fun ti => stringifyPlain ti.2)
      let verdict := if isToolCallRequestJ j then evaluatePolicy policy serverName toolName
        else Verdict.passthrough
      ⟨some j, verdict, toolName, argumentsJson, methodOf j, extractIdJ j⟩

/-- interceptor `buildDenyResponse`: the synthesized JSON-RPC error. -/
def buildDenyResponse (requestId : Json) : String :=
  stringifyPlain (.obj
    [("jsonrpc", .str "2.0"),
     ("id", requestId),
     ("error", .obj
       [("code", .num (-32600)),
        ("message", .str "Quint: tool call denied by policy")])])

/-- `result.message && "id" in result.message ? result.message.id : null`
(then `?? null`). -/
def rawIdOf : Option Json → Json
  | some (.obj fs) =>
    (match fs.lookup "id" with
     | some v => v
     | none => .null)
  | _ => .null

/-- What one `parentMessage` event produces: lines written back to the
agent, lines forwarded to the child server, and the `AuditLogger.log`
calls, in order. -/
structure HandlerOutput where
  toParent : List String
  toChild : List String
  logged : List LogOpts
deriving Repr, DecidableEq

/-- JavaScript falsiness of `result.toolName` (`null` or `""`). -/
def toolFalsy : Option String → Bool
  | none => true
  | some t => t == ""

/-- The `startProxy` `parentMessage` handler (risk-aware version):
log-then-decide for non-tool or denied requests, risk scoring for
allowed tool calls, deny synthesis, forwarding.  `line` is the raw
inbound line, `parsed` its parse result; the behavior history threads
through. -/
def handleParentMessage (policy : PolicyConfig) (serverName : String) (eng : RiskEngine)
    (hist : Hist) (now : Int) (parsed : Option Json) (line : String) :
    HandlerOutput × Hist :=
  let result := inspectRequestJ parsed serverName policy
  let firstLog : List LogOpts :=
    if toolFalsy result.toolName || result.verdict == .deny then
      [{ serverName := serverName, direction := "request", method := result.method,
         messageId := result.messageId, toolName := result.toolName,
         argumentsJson := result.argumentsJson, responseJson := none,
         verdict := result.verdict }]
    else []
  if result.verdict == .deny then
    let errorResponse := buildDenyResponse (rawIdOf result.message)
    let respLog : LogOpts :=
      { serverName := serverName, direction := "response", method := result.method,
        messageId := result.messageId, toolName := result.toolName,
        argumentsJson := none, responseJson := some errorResponse, verdict := .deny }
    (⟨[errorResponse], [], firstLog ++ [respLog]⟩, hist)
  else if !toolFalsy result.toolName then
    let scored := riskScoreFn eng hist now (result.toolName.getD "") result.argumentsJson "anonymous"
    let risk := scored.1
    let riskAction := riskEvaluate eng risk
    let reqLog : LogOpts :=
      { serverName := serverName, direction := "request", method := result.method,
        messageId := result.messageId, toolName := result.toolName,
        argumentsJson := result.argumentsJson, responseJson := none,
        verdict := result.verdict, riskScore := some risk.score, riskLevel := some risk.level }
    let after : HandlerOutput :=
      if riskAction == .deny then
        let errorResponse := buildDenyResponse (rawIdOf result.message)
        let respLog : LogOpts :=
          { serverName := serverName, direction := "response", method := result.method,
            messageId := result.messageId, toolName := result.toolName,
            argumentsJson := none, responseJson := some errorResponse, verdict := .deny,
            riskScore := some risk.score, riskLevel := some risk.level }
        ⟨[errorResponse], [], firstLog ++ [reqLog, respLog]⟩
      else ⟨[], [line], firstLog ++ [reqLog]⟩
    -- `riskEngine.shouldRevoke("anonymous")` only logs a warning, but
    -- its count prunes the behavior state.
    let revoked := shouldRevoke eng scored.2 now "anonymous"
    (after, revoked.2)
  else
    (⟨[], [line], firstLog⟩, hist)

-- ── Spec-side canonical serialization (for refinement claims) ───

mutual

/-- The serialization the spec's words describe: keys of **every**
mapping appear in ascending code-point order and **every** entry of
every nesting level is preserved; values are serialized recursively
under the same rule.  Used only to compare against `canonicalize`. -/
def canonicalSpecVal : Json → String
  | .null => "null"
  | .bool b => cond b "true" "false"
  | .num n => ⟨intRepr n⟩
  | .str s => quoteJSONString s
  | .arr xs => "[" ++ String.intercalate "," (canonicalSpecElems xs) ++ "]"
  | .obj fs =>
    "\x7b" ++ String.intercalate ","
      (renderMembers (some (sortKeys (fs.map Prod.fst))) (canonicalSpecFields fs)) ++ "\x7d"

/-- Spec-side serialization of array elements. -/
def canonicalSpecElems : List Json → List String
  | [] => []
  | x :: xs => canonicalSpecVal x :: canonicalSpecElems xs

/-- Spec-side serialization of object field values. -/
def canonicalSpecFields : List (String × Json) → List (String × String)
  | [] => []
  | (k, v) :: fs => (k, canonicalSpecVal v) :: canonicalSpecFields fs

end

/-- Spec-side canonical serialization of a top-level mapping. -/
def canonicalSpecSerialization (fs : List (String × Json)) : String :=
  canonicalSpecVal (.obj fs)

/-- No duplicates in a key list. -/
def distinctKeys : List String → Bool
  | [] => true
  | k :: ks => !ks.contains k && distinctKeys ks

mutual

/-- Every mapping at every nesting level has duplicate-free keys — true
of everything `JSON.parse` can produce. -/
def jsonWF : Json → Bool
  | .obj fs => distinctKeys (fs.map Prod.fst) && jsonWFFields fs
  | .arr xs => jsonWFElems xs
  | _ => true

/-- `jsonWF` over array elements. -/
def jsonWFElems : List Json → Bool
  | [] => true
  | x :: xs => jsonWF x && jsonWFElems xs

/-- `jsonWF` over object field values. -/
def jsonWFFields : List (String × Json) → Bool
  | [] => true
  | (_, v) :: fs => jsonWF v && jsonWFFields fs

end

mutual

/-- Every key of every mapping nested anywhere inside the value occurs
in `K`. -/
def deepKeysIn (K : List String) : Json → Bool
  | .obj fs => (fs.map Prod.fst).all (fun k => K.contains k) && deepKeysInFields K fs
  | .arr xs => deepKeysInElems K xs
  | _ => true

/-- `deepKeysIn` over array elements. -/
def deepKeysInElems (K : List String) : List Json → Bool
  | [] => true
  | x :: xs => deepKeysIn K x && deepKeysInElems K xs

/-- `deepKeysIn` over object field values. -/
def deepKeysInFields (K : List String) : List (String × Json) → Bool
  | [] => true
  | (_, v) :: fs => deepKeysIn K v && deepKeysInFields K fs

end

-- ── Decoders used to prove serializations injective ─────────────

/-- Value of a decimal digit string (left inverse of `natDigits`). -/
def digitsVal (l : List Char) : Nat := l.foldl (fun a c => 10 * a + (c.toNat - 48)) 0

/-- Inverse of the short escapes of `escapeChar`. -/
def unescapeShort (c : Char) : Char :=
  if c = 'b' then '\x08'
  else if c = 'f' then '\x0c'
  else if c = 'n' then '\n'
  else if c = 'r' then '\r'
  else if c = 't' then '\t'
  else c

/-- Value of a lowercase hex digit. -/
def hexVal (c : Char) : Nat := if c.isDigit then c.toNat - 48 else c.toNat - 87

/-- Decoder for `escapeStr` output (left inverse; used only to prove
the escaping injective). -/
def unescape : List Char → Option (List Char)
  | [] => some []
  | '\\' :: 'u' :: '0' :: '0' :: h1 :: h2 :: rest =>
    (unescape rest).map (fun t => Char.ofNat (hexVal h1 * 16 + hexVal h2) :: t)
  | '\\' :: c :: rest => (unescape rest).map (fun t => unescapeShort c :: t)
  | c :: rest => (unescape rest).map (fun t => c :: t)

-- ── The signable view's sorted key list and value serializers ───

/-- The sorted key list of a signable view (what `Object.keys(signable)
.sort()` yields inside `canonicalize`). -/
def sigKeys : List String :=
  ["arguments_json", "direction", "message_id", "method", "nonce",
   "policy_hash", "prev_hash", "public_key", "response_json",
   "risk_level", "risk_score", "server_name", "timestamp", "tool_name", "verdict"]

/-- Serialization of a nullable string field of a signable view. -/
def serOS (v : Option String) : String := stringifyVal (some sigKeys) (optStrJson v)

/-- Serialization of a nullable integer field of a signable view. -/
def serON (v : Option Int) : String := stringifyVal (some sigKeys) (optIntJson v)

-- ── Chain predicate ─────────────────────────────────────────────

/-- The hash chain rooted at an expected `prev_hash` value: each record
carries the expected link and hands `sha256(signature)` to its
successor. -/
def ChainOk (hash : String → String) : String → List AuditEntry → Prop
  | _, [] => True
  | expected, e :: rest => e.prev_hash = expected ∧ ChainOk hash (hash e.signature) rest

/-- All signatures in a ledger are non-empty (true of hex-encoded
Ed25519 signatures, and needed because `prevSignature ?` treats the
empty string like null). -/
def SigsNonempty (ledger : List AuditEntry) : Prop := ∀ e ∈ ledger, e.signature ≠ ""

-- ── Concrete fixtures ───────────────────────────────────────────

/-- The policy of the spec's scenario S1, with the glob form of the tool
rule used by the repository's own test suite
(`{ tool: "Mechanic*", action: "deny" }` on server `builder-mcp`). -/
def mechanicGlobPolicy : PolicyConfig :=
  ⟨1, "/tmp/quint", "info", [⟨"builder-mcp", .allow, [⟨"Mechanic*", .deny⟩]⟩]⟩

/-- The same policy with the exact tool name in the rule. -/
def mechanicExactPolicy : PolicyConfig :=
  ⟨1, "/tmp/quint", "info", [⟨"builder-mcp", .allow, [⟨"MechanicRunTool", .deny⟩]⟩]⟩

/-- The fail-closed policy of scenario S3: a single server entry that
matches nothing else. -/
def onlyThisPolicy : PolicyConfig :=
  ⟨1, "/tmp", "info", [⟨"only-this", .allow, []⟩]⟩

/-- A mapping with one nested entry whose key is not a top-level key. -/
def nestedMapExample : List (String × Json) := [("a", .obj [("b", .num 1)])]

/-- Two policies that differ only inside the `servers` list (the tool
rule's action flips). -/
def policyVariantA : PolicyConfig := mechanicExactPolicy

/-- See `policyVariantA`. -/
def policyVariantB : PolicyConfig :=
  ⟨1, "/tmp/quint", "info", [⟨"builder-mcp", .allow, [⟨"MechanicRunTool", .allow⟩]⟩]⟩

/-- A parsed `tools/call` request for `MechanicRunTool` with id 1. -/
def mechanicCallMsg : Json :=
  .obj [("jsonrpc", .str "2.0"), ("id", .num 1), ("method", .str "tools/call"),
        ("params", .obj [("name", .str "MechanicRunTool"), ("arguments", .obj [])])]

-- .. Concrete witness fixtures ..................................

def wHash (s : String) : String := "#" ++ s

def wSign (d k : String) : String := (("S:" ++ k) ++ ":") ++ d

def wVerify (data sig _pubkey : String) : Bool := sig == wSign data "wpriv"

def wCfg : LoggerCfg := ⟨"wpriv", "wpub", "ph0"⟩

def wOpts : LogOpts := ⟨"srv", "request", "tools/call", some "1", some "T", none, none, .deny, none, none⟩

def wSteps : List AppendStep :=
  [⟨wCfg, "t1", "n1", wOpts⟩, ⟨⟨"wpriv", "wpub2", "ph2"⟩, "t2", "n2", wOpts⟩, ⟨wCfg, "t3", "n3", wOpts⟩]

def nestedOkExample : List (String × Json) :=
  [("b", .obj [("a", .num 2)]), ("a", .num 1)]

def wRateLimiter : RateLimiter := ⟨[("k", [0, 1000, 2000])], [], ⟨2, 1⟩⟩

def mechanicCallFields : List (String × Json) :=
  [("jsonrpc", .str "2.0"), ("id", .num 1), ("method", .str "tools/call"),
   ("params", .obj [("name", .str "MechanicRunTool"), ("arguments", .obj [])])]

theorem digitChar_sub (k : Nat) (h : k < 10) : (Nat.digitChar k).toNat - 48 = k := by
  interval_cases k <;> rfl

theorem digitChar_isDigit (k : Nat) (h : k < 10) : (Nat.digitChar k).isDigit = true := by
  interval_cases k <;> rfl

theorem digitsVal_append_last (l : List Char) (c : Char) :
    digitsVal (l ++ [c]) = 10 * digitsVal l + (c.toNat - 48) := by
  simp [digitsVal, List.foldl_append]

theorem digitsVal_natDigitsAux (fuel : Nat) : ∀ n, n < fuel → digitsVal (natDigitsAux fuel n) = n := by
  induction fuel with
  | zero => omega
  | succ f ih =>
    intro n hn
    rw [natDigitsAux]
    by_cases h10 : n < 10
    · rw [if_pos h10]
      show 10 * 0 + ((Nat.digitChar n).toNat - 48) = n
      rw [digitChar_sub n h10]
      omega
    · rw [if_neg h10]
      rw [digitsVal_append_last]
      have hdiv : n / 10 < f := by
        have h1 : n / 10 < n := Nat.div_lt_self (by omega) (by omega)
        omega
      rw [ih (n / 10) hdiv, digitChar_sub (n % 10) (Nat.mod_lt n (by omega))]
      omega

theorem digitsVal_natDigits (n : Nat) : digitsVal (natDigits n) = n :=
  digitsVal_natDigitsAux (n + 1) n (by omega)

theorem natDigits_inj {a b : Nat} (h : natDigits a = natDigits b) : a = b := by
  have := congrArg digitsVal h
  rwa [digitsVal_natDigits, digitsVal_natDigits] at this

theorem natDigitsAux_isDigit (fuel : Nat) : ∀ n c, c ∈ natDigitsAux fuel n → c.isDigit = true := by
  induction fuel with
  | zero => intro n c hc; simp [natDigitsAux] at hc
  | succ f ih =>
    intro n c hc
    rw [natDigitsAux] at hc
    by_cases h10 : n < 10
    · rw [if_pos h10] at hc
      simp at hc
      rw [hc]; exact digitChar_isDigit n h10
    · rw [if_neg h10] at hc
      rcases List.mem_append.mp hc with h | h
      · exact ih _ _ h
      · simp at h
        rw [h]; exact digitChar_isDigit (n % 10) (Nat.mod_lt n (by omega))

theorem natDigits_ne_nil (n : Nat) : natDigits n ≠ [] := by
  unfold natDigits natDigitsAux
  by_cases h10 : n < 10
  · rw [if_pos h10]; simp
  · rw [if_neg h10]; simp

theorem head_not_digit_of_natDigits {n : Nat} {l : List Char} (h : natDigits n = '-' :: l) : False := by
  have hd : ('-' : Char) ∈ natDigits n := by rw [h]; exact List.mem_cons_self _ _
  have := natDigitsAux_isDigit (n + 1) n '-' hd
  simp [Char.isDigit] at this

theorem intRepr_inj {m n : Int} (h : intRepr m = intRepr n) : m = n := by
  unfold intRepr at h
  by_cases hm : m < 0 <;> by_cases hn : n < 0
  · rw [if_pos hm, if_pos hn] at h
    have h2 := natDigits_inj (List.cons_injective h)
    omega
  · rw [if_pos hm, if_neg hn] at h
    exact absurd h.symm (fun hh => head_not_digit_of_natDigits hh)
  · rw [if_neg hm, if_pos hn] at h
    exact absurd h (fun hh => head_not_digit_of_natDigits hh)
  · rw [if_neg hm, if_neg hn] at h
    have := natDigits_inj h
    omega

theorem hexVal_hexDigitChar (k : Nat) (h : k < 16) : hexVal (hexDigitChar k) = k := by
  interval_cases k <;> rfl

theorem unescape_escapeChar (c : Char) (rest : List Char) :
    unescape (escapeChar c ++ rest) = (unescape rest).map (c :: ·) := by
  by_cases h1 : c = '"'
  · subst h1; rfl
  by_cases h2 : c = '\\'
  · subst h2; rfl
  by_cases h3 : c = '\x08'
  · subst h3; rfl
  by_cases h4 : c = '\x0c'
  · subst h4; rfl
  by_cases h5 : c = '\n'
  · subst h5; rfl
  by_cases h6 : c = '\r'
  · subst h6; rfl
  by_cases h7 : c = '\t'
  · subst h7; rfl
  by_cases h8 : c.toNat < 32
  · rw [escapeChar, if_neg h1, if_neg h2, if_neg h3, if_neg h4, if_neg h5, if_neg h6,
      if_neg h7, if_pos h8]
    show unescape ('\\' :: 'u' :: '0' :: '0' :: hexDigitChar (c.toNat / 16) :: hexDigitChar (c.toNat % 16) :: rest) = _
    rw [unescape]
    have hhi : c.toNat / 16 < 16 := by omega
    have hlo : c.toNat % 16 < 16 := by omega
    rw [hexVal_hexDigitChar _ hhi, hexVal_hexDigitChar _ hlo]
    have : c.toNat / 16 * 16 + c.toNat % 16 = c.toNat := by omega
    rw [this, Char.ofNat_toNat]
  · rw [escapeChar, if_neg h1, if_neg h2, if_neg h3, if_neg h4, if_neg h5, if_neg h6,
      if_neg h7, if_neg h8]
    show unescape (c :: rest) = _
    rw [unescape.eq_def]
    split
    · simp_all
    · rename_i heq; simp at heq
      exact absurd heq.1 h2
    · rename_i heq; simp at heq
      exact absurd heq.1 h2
    · rename_i heq
      have h9 : c = _ ∧ rest = _ := List.cons.inj heq
      rw [h9.1, h9.2]

theorem unescape_escapeStr (s : List Char) : unescape (escapeStr s) = some s := by
  induction s with
  | nil => rfl
  | cons c cs ih =>
    rw [escapeStr, unescape_escapeChar, ih]
    rfl

theorem escapeStr_inj {a b : List Char} (h : escapeStr a = escapeStr b) : a = b := by
  have := congrArg unescape h
  rw [unescape_escapeStr, unescape_escapeStr] at this
  exact Option.some.inj this

theorem strAppend_cancel_left {a b c : String} (h : a ++ b = a ++ c) : b = c := by
  have hd := congrArg String.data h
  rw [String.data_append, String.data_append] at hd
  have h2 := List.append_cancel_left hd
  cases b; cases c; simp at h2; rw [h2]

theorem strAppend_cancel_right {a b c : String} (h : a ++ c = b ++ c) : a = b := by
  have hd := congrArg String.data h
  rw [String.data_append, String.data_append] at hd
  have h2 := List.append_cancel_right hd
  cases a; cases b; simp at h2; rw [h2]

theorem quoteJSONString_inj {a b : String} (h : quoteJSONString a = quoteJSONString b) : a = b := by
  unfold quoteJSONString at h
  have hd : '"' :: escapeStr a.data ++ ['"'] = '"' :: escapeStr b.data ++ ['"'] := congrArg String.data h
  have h2 := List.cons_injective hd
  have h3 := (List.append_left_inj _).mp h2
  have h4 := escapeStr_inj h3
  cases a; cases b; simp at h4; rw [h4]

theorem natDigits_head_digit {n : Nat} {c : Char} {t : List Char} (e : natDigits n = c :: t) :
    c.isDigit = true := by
  refine natDigitsAux_isDigit (n + 1) n c ?_
  show c ∈ natDigits n
  rw [e]
  exact List.mem_cons_self _ _

theorem intRepr_ne_null (n : Int) : intRepr n ≠ "null".data := by
  intro hd
  unfold intRepr at hd
  by_cases hn : n < 0
  · rw [if_pos hn] at hd
    exact absurd (List.head_eq_of_cons_eq hd) (by decide)
  · rw [if_neg hn] at hd
    cases e : natDigits n.toNat with
    | nil => exact natDigits_ne_nil _ e
    | cons c t =>
      rw [e] at hd
      have hc : c = 'n' := List.head_eq_of_cons_eq hd
      have hdig := natDigits_head_digit e
      rw [hc] at hdig
      simp [Char.isDigit] at hdig

theorem serON_inj {a b : Option Int} (h : serON a = serON b) : a = b := by
  match a, b with
  | none, none => rfl
  | some m, some n =>
    have h' : (⟨intRepr m⟩ : String) = ⟨intRepr n⟩ := h
    rw [intRepr_inj (congrArg String.data h')]
  | none, some n =>
    have h' : ("null" : String) = ⟨intRepr n⟩ := h
    exact absurd (congrArg String.data h').symm (intRepr_ne_null n)
  | some m, none =>
    have h' : (⟨intRepr m⟩ : String) = "null" := h
    exact absurd (congrArg String.data h') (intRepr_ne_null m)

theorem quote_data_ne_null (s : String) : ('"' : Char) :: escapeStr s.data ++ ['"'] ≠ "null".data := by
  intro hd
  exact absurd (List.head_eq_of_cons_eq hd) (by decide)

theorem serOS_inj {a b : Option String} (h : serOS a = serOS b) : a = b := by
  match a, b with
  | none, none => rfl
  | some s, some t =>
    have h' : quoteJSONString s = quoteJSONString t := h
    rw [quoteJSONString_inj h']
  | none, some t =>
    have h' : ("null" : String) = quoteJSONString t := h
    exact absurd (congrArg String.data h').symm (quote_data_ne_null t)
  | some s, none =>
    have h' : quoteJSONString s = ("null" : String) := h
    exact absurd (congrArg String.data h') (quote_data_ne_null s)

set_option maxHeartbeats 1000000 in
theorem skel (v1 v2 v3 v4 v5 v6 v7 v8 v9 v10 v11 v12 v13 v14 v15 : Json) :
    stringifyVal (some sigKeys) (.obj [("timestamp", v13), ("server_name", v12), ("direction", v2), ("method", v4), ("message_id", v3), ("tool_name", v14), ("arguments_json", v1), ("response_json", v9), ("verdict", v15), ("risk_score", v11), ("risk_level", v10), ("policy_hash", v6), ("prev_hash", v7), ("nonce", v5), ("public_key", v8)]) =
    (("\x7b" ++ ((((((((((((((((((((((((((((("\"arguments_json\":" ++ stringifyVal (some sigKeys) v1) ++ ",") ++ ("\"direction\":" ++ stringifyVal (some sigKeys) v2)) ++ ",") ++ ("\"message_id\":" ++ stringifyVal (some sigKeys) v3)) ++ ",") ++ ("\"method\":" ++ stringifyVal (some sigKeys) v4)) ++ ",") ++ ("\"nonce\":" ++ stringifyVal (some sigKeys) v5)) ++ ",") ++ ("\"policy_hash\":" ++ stringifyVal (some sigKeys) v6)) ++ ",") ++ ("\"prev_hash\":" ++ stringifyVal (some sigKeys) v7)) ++ ",") ++ ("\"public_key\":" ++ stringifyVal (some sigKeys) v8)) ++ ",") ++ ("\"response_json\":" ++ stringifyVal (some sigKeys) v9)) ++ ",") ++ ("\"risk_level\":" ++ stringifyVal (some sigKeys) v10)) ++ ",") ++ ("\"risk_score\":" ++ stringifyVal (some sigKeys) v11)) ++ ",") ++ ("\"server_name\":" ++ stringifyVal (some sigKeys) v12)) ++ ",") ++ ("\"timestamp\":" ++ stringifyVal (some sigKeys) v13)) ++ ",") ++ ("\"tool_name\":" ++ stringifyVal (some sigKeys) v14)) ++ ",") ++ ("\"verdict\":" ++ stringifyVal (some sigKeys) v15))) ++ "\x7d") := by rfl

set_option maxHeartbeats 1000000 in
theorem canonSig_decomp (ts : String) (o : LogOpts) (ph pv nn pk : String) :
    canonicalize (signableFields ts o ph pv nn pk) =
    (("\x7b" ++ ((((((((((((((((((((((((((((("\"arguments_json\":" ++ serOS o.argumentsJson) ++ ",") ++ ("\"direction\":" ++ quoteJSONString o.direction)) ++ ",") ++ ("\"message_id\":" ++ serOS o.messageId)) ++ ",") ++ ("\"method\":" ++ quoteJSONString o.method)) ++ ",") ++ ("\"nonce\":" ++ quoteJSONString nn)) ++ ",") ++ ("\"policy_hash\":" ++ quoteJSONString ph)) ++ ",") ++ ("\"prev_hash\":" ++ quoteJSONString pv)) ++ ",") ++ ("\"public_key\":" ++ quoteJSONString pk)) ++ ",") ++ ("\"response_json\":" ++ serOS o.responseJson)) ++ ",") ++ ("\"risk_level\":" ++ serOS o.riskLevel)) ++ ",") ++ ("\"risk_score\":" ++ serON o.riskScore)) ++ ",") ++ ("\"server_name\":" ++ quoteJSONString o.serverName)) ++ ",") ++ ("\"timestamp\":" ++ quoteJSONString ts)) ++ ",") ++ ("\"tool_name\":" ++ serOS o.toolName)) ++ ",") ++ ("\"verdict\":" ++ quoteJSONString (verdictStr o.verdict)))) ++ "\x7d") := by
  have h2 : sortKeys (keysOf (signableFields ts o ph pv nn pk)) = sigKeys := by
    show sortKeys ["timestamp", "server_name", "direction", "method", "message_id",
      "tool_name", "arguments_json", "response_json", "verdict", "risk_score",
      "risk_level", "policy_hash", "prev_hash", "nonce", "public_key"] = sigKeys
    decide
  unfold canonicalize
  rw [h2]
  exact skel (optStrJson o.argumentsJson) (.str o.direction) (optStrJson o.messageId)
    (.str o.method) (.str nn) (.str ph) (.str pv) (.str pk) (optStrJson o.responseJson)
    (optStrJson o.riskLevel) (optIntJson o.riskScore) (.str o.serverName) (.str ts)
    (optStrJson o.toolName) (.str (verdictStr o.verdict))

theorem canonSig_riskScore_inj (ts : String) (o : LogOpts) (ph pv nn pk : String) (x y : Option Int)
    (h : canonicalize (signableFields ts { o with riskScore := x } ph pv nn pk) =
         canonicalize (signableFields ts { o with riskScore := y } ph pv nn pk)) : x = y := by
  rw [canonSig_decomp, canonSig_decomp] at h
  have h := strAppend_cancel_right h
  have h := strAppend_cancel_left h
  have h := strAppend_cancel_right h
  have h := strAppend_cancel_right h
  have h := strAppend_cancel_right h
  have h := strAppend_cancel_right h
  have h := strAppend_cancel_right h
  have h := strAppend_cancel_right h
  have h := strAppend_cancel_right h
  have h := strAppend_cancel_right h
  have h := strAppend_cancel_left h
  have h := strAppend_cancel_left h
  exact serON_inj h

theorem canonSig_riskLevel_inj (ts : String) (o : LogOpts) (ph pv nn pk : String) (x y : Option String)
    (h : canonicalize (signableFields ts { o with riskLevel := x } ph pv nn pk) =
         canonicalize (signableFields ts { o with riskLevel := y } ph pv nn pk)) : x = y := by
  rw [canonSig_decomp, canonSig_decomp] at h
  have h := strAppend_cancel_right h
  have h := strAppend_cancel_left h
  have h := strAppend_cancel_right h
  have h := strAppend_cancel_right h
  have h := strAppend_cancel_right h
  have h := strAppend_cancel_right h
  have h := strAppend_cancel_right h
  have h := strAppend_cancel_right h
  have h := strAppend_cancel_right h
  have h := strAppend_cancel_right h
  have h := strAppend_cancel_right h
  have h := strAppend_cancel_right h
  have h := strAppend_cancel_left h
  have h := strAppend_cancel_left h
  exact serOS_inj h

theorem chainOk_append (hash : String → String) (e : AuditEntry) :
    ∀ (led : List AuditEntry) (exp : String), ChainOk hash exp led →
    e.prev_hash = (match led.getLast? with
      | none => exp
      | some l => hash l.signature) →
    ChainOk hash exp (led ++ [e]) := by
  intro led
  induction led with
  | nil =>
    intro exp _ he
    exact ⟨he, trivial⟩
  | cons a rest ih =>
    intro exp h he
    obtain ⟨h1, h2⟩ := h
    refine ⟨h1, ih _ h2 ?_⟩
    cases rest with
    | nil => simpa using he
    | cons b t => simpa [List.getLast?_cons_cons] using he

theorem runAppends_inv (hash : String → String) (sign : String → String → String)
    (hsig : ∀ d k, sign d k ≠ "") (steps : List AppendStep) :
    ∀ led : List AuditEntry, ChainOk hash "" led → SigsNonempty led →
    ChainOk hash "" (steps.foldl (fun l st => (loggerLog hash sign st.cfg st.timestamp st.nonce st.opts l).1) led) ∧
    SigsNonempty (steps.foldl (fun l st => (loggerLog hash sign st.cfg st.timestamp st.nonce st.opts l).1) led) := by
  induction steps with
  | nil => intro led h hs; exact ⟨h, hs⟩
  | cons st rest ih =>
    intro led h hs
    rw [List.foldl_cons]
    apply ih
    · apply chainOk_append hash _ led "" h
      show (match (led.getLast?).map (fun e => e.signature) with
        | none => ""
        | some s => if s = "" then "" else hash s) = _
      cases hl : led.getLast? with
      | none => rfl
      | some l =>
        have hm : l ∈ led := List.mem_of_getLast?_eq_some hl
        have : l.signature ≠ "" := hs l hm
        simp [this]
    · intro e he
      rcases List.mem_append.mp he with hm | hm
      · exact hs e hm
      · have : e = loggerBuild hash sign st.cfg st.timestamp st.nonce st.opts ((led.getLast?).map (fun x => x.signature)) := by
          simpa using hm
        rw [this]
        exact hsig _ _

theorem chainOk_adjacent (hash : String → String) :
    ∀ (l : List AuditEntry) (exp : String), ChainOk hash exp l →
    ∀ i, (h : i + 1 < l.length) → l[i + 1].prev_hash = hash (l[i].signature) := by
  intro l
  induction l with
  | nil => intro exp _ i h; simp at h
  | cons a rest ih =>
    intro exp hc i h
    obtain ⟨h1, h2⟩ := hc
    match i with
    | 0 =>
      match rest, h2 with
      | b :: t, ⟨hb, _⟩ => simpa using hb
    | Nat.succ j =>
      have hj : j + 1 < rest.length := by simpa using h
      simpa using ih _ h2 j hj

theorem chainOk_zero (hash : String → String) :
    ∀ (l : List AuditEntry) (exp : String), ChainOk hash exp l →
    (h : 0 < l.length) → l[0].prev_hash = exp := by
  intro l exp hc h
  cases l with
  | nil => simp at h
  | cons e rest => exact hc.1

/-- C3: in every ledger produced by a sequence of `AuditLogger.log`
appends through `insertAtomic` — possibly from several logger instances
sharing one database — each record's `prev_hash` is the hash of its
predecessor's signature, and the first record has the empty `prev_hash`.
`sha256`/`signData` abstract the external node:crypto primitives;
signatures are assumed non-empty (hex-encoded Ed25519 always is). -/
theorem audit_chain_continuity (sha256 : String → String) (signData : String → String → String)
    (hsig : ∀ d k, signData d k ≠ "") (steps : List AppendStep) :
    (∀ i, (h : i + 1 < (runAppends sha256 signData steps).length) →
      (runAppends sha256 signData steps)[i + 1].prev_hash =
        sha256 ((runAppends sha256 signData steps)[i].signature)) ∧
    ((h0 : 0 < (runAppends sha256 signData steps).length) →
      (runAppends sha256 signData steps)[0].prev_hash = "") := by
  have hinv := runAppends_inv sha256 signData hsig steps [] trivial (by intro e he; simp at he)
  constructor
  · exact fun i h => chainOk_adjacent sha256 _ "" hinv.1 i h
  · exact fun h0 => chainOk_zero sha256 _ "" hinv.1 h0

/-- C3 witness: the chain property instantiated with concrete hash and
signing functions over a three-append run from two logger instances. -/
theorem audit_chain_continuity_witness :
    (∀ d k, wSign d k ≠ "") ∧
    ((∀ i, (h : i + 1 < (runAppends wHash wSign wSteps).length) →
      (runAppends wHash wSign wSteps)[i + 1].prev_hash =
        wHash ((runAppends wHash wSign wSteps)[i].signature)) ∧
    ((h0 : 0 < (runAppends wHash wSign wSteps).length) →
      (runAppends wHash wSign wSteps)[0].prev_hash = "")) := by
  have hs : ∀ d k, wSign d k ≠ "" := by
    intro d k h
    have hlen : 2 + k.length + 1 + d.length = 0 := by
      simpa [wSign, String.length_append, show ("S:" : String).length = 2 from rfl,
        show (":" : String).length = 1 from rfl, show ("" : String).length = 0 from rfl]
        using congrArg String.length h
    omega
  exact ⟨hs, audit_chain_continuity wHash wSign hs wSteps⟩

/-- C4: a record built by `AuditLogger.log` verifies against
`canonicalize` of its signable view (every field except id and
signature) under the operator's public key, and mutating `risk_score` or
`risk_level` makes verification fail.  Ed25519 is abstracted by
`signData`/`verifySignature` with its round-trip and soundness
properties as hypotheses; the repository-level content — what exactly is
signed, and that the mutations change the canonical bytes — is proved. -/
theorem sign_verify_roundtrip (sha256 : String → String) (signData : String → String → String)
    (verifySignature : String → String → String → Bool) (cfg : LoggerCfg)
    (hver : ∀ d, verifySignature d (signData d cfg.privateKey) cfg.publicKey = true)
    (hsound : ∀ d d', verifySignature d' (signData d cfg.privateKey) cfg.publicKey = true → d' = d)
    (ts nonce : String) (o : LogOpts) (prevSig : Option String) :
    verifySignature
      (canonicalize (signableView (loggerBuild sha256 signData cfg ts nonce o prevSig)))
      (loggerBuild sha256 signData cfg ts nonce o prevSig).signature cfg.publicKey = true ∧
    (∀ x : Option Int, x ≠ (loggerBuild sha256 signData cfg ts nonce o prevSig).risk_score →
      verifySignature
        (canonicalize (signableView { loggerBuild sha256 signData cfg ts nonce o prevSig with risk_score := x }))
        (loggerBuild sha256 signData cfg ts nonce o prevSig).signature cfg.publicKey = false) ∧
    (∀ lv : Option String, lv ≠ (loggerBuild sha256 signData cfg ts nonce o prevSig).risk_level →
      verifySignature
        (canonicalize (signableView { loggerBuild sha256 signData cfg ts nonce o prevSig with risk_level := lv }))
        (loggerBuild sha256 signData cfg ts nonce o prevSig).signature cfg.publicKey = false) := by
  refine ⟨hver _, ?_, ?_⟩
  · intro x hx
    by_contra hb
    rw [Bool.not_eq_false] at hb
    have heq := hsound _ _ hb
    have hxy : x = o.riskScore := canonSig_riskScore_inj ts o cfg.policyHash _ nonce cfg.publicKey x o.riskScore heq
    exact hx hxy
  · intro lv hlv
    by_contra hb
    rw [Bool.not_eq_false] at hb
    have heq := hsound _ _ hb
    have hxy : lv = o.riskLevel := canonSig_riskLevel_inj ts o cfg.policyHash _ nonce cfg.publicKey lv o.riskLevel heq
    exact hlv hxy

/-- C4 witness: the round trip and mutation failure at a concrete
record under a concrete signature scheme satisfying the hypotheses. -/
theorem sign_verify_roundtrip_witness :
    (∀ d, wVerify d (wSign d wCfg.privateKey) wCfg.publicKey = true) ∧
    (∀ d d', wVerify d' (wSign d wCfg.privateKey) wCfg.publicKey = true → d' = d) ∧
    (wVerify
      (canonicalize (signableView (loggerBuild wHash wSign wCfg "t0" "n0" wOpts none)))
      (loggerBuild wHash wSign wCfg "t0" "n0" wOpts none).signature wCfg.publicKey = true ∧
    (∀ x : Option Int, x ≠ (loggerBuild wHash wSign wCfg "t0" "n0" wOpts none).risk_score →
      wVerify
        (canonicalize (signableView { loggerBuild wHash wSign wCfg "t0" "n0" wOpts none with risk_score := x }))
        (loggerBuild wHash wSign wCfg "t0" "n0" wOpts none).signature wCfg.publicKey = false) ∧
    (∀ lv : Option String, lv ≠ (loggerBuild wHash wSign wCfg "t0" "n0" wOpts none).risk_level →
      wVerify
        (canonicalize (signableView { loggerBuild wHash wSign wCfg "t0" "n0" wOpts none with risk_level := lv }))
        (loggerBuild wHash wSign wCfg "t0" "n0" wOpts none).signature wCfg.publicKey = false)) := by
  have h1 : ∀ d, wVerify d (wSign d wCfg.privateKey) wCfg.publicKey = true := fun d => by
    simp [wVerify, wCfg]
  have h2 : ∀ d d', wVerify d' (wSign d wCfg.privateKey) wCfg.publicKey = true → d' = d := by
    intro d d' hv
    have hx : wSign d "wpriv" = wSign d' "wpriv" := by simpa [wVerify, wCfg] using hv
    exact (strAppend_cancel_left hx).symm
  exact ⟨h1, h2, sign_verify_roundtrip wHash wSign wVerify wCfg h1 h2 "t0" "n0" wOpts none⟩

theorem globStarAux_of_self (f : List Char → Bool) (s : List Char) (h : f s = true) :
    globStarAux f s = true := by
  cases s <;> simp [globStarAux, h]

theorem globMatchL_self (p : List Char) : globMatchL p p = true := by
  induction p with
  | nil => rfl
  | cons c ps ih =>
    by_cases h1 : c = '*'
    · subst h1
      show globStarAux (globMatchL ps) ('*' :: ps) = true
      have h2 : globStarAux (globMatchL ps) ps = true := globStarAux_of_self _ _ ih
      simp [globStarAux, h2]
    · by_cases h2 : c = '?'
      · subst h2
        simpa [globMatchL] using ih
      · rw [globMatchL.eq_def]
        simp [h1, h2, ih]

theorem globMatch_self (s : String) : globMatch s s = true := globMatchL_self s.data

theorem charEq_of_toNat_eq {x y : Char} (h : x.toNat = y.toNat) : x = y :=
  Char.eq_of_val_eq (UInt32.toNat.inj h)

theorem lexLe_total (a b : List Char) : lexLe a b = true ∨ lexLe b a = true := by
  induction a generalizing b with
  | nil => left; rfl
  | cons x xs ih =>
    cases b with
    | nil => right; rfl
    | cons y ys =>
      by_cases h1 : x.toNat < y.toNat
      · left; simp [lexLe, h1]
      · by_cases h2 : y.toNat < x.toNat
        · right; simp [lexLe, h2]
        · rcases ih ys with h | h
          · left; simp [lexLe, h1, h2, h]
          · right; simp [lexLe, h1, h2, h]

theorem lexLe_antisymm : ∀ {a b : List Char}, lexLe a b = true → lexLe b a = true → a = b := by
  intro a
  induction a with
  | nil =>
    intro b _ hba
    cases b with
    | nil => rfl
    | cons y ys => simp [lexLe] at hba
  | cons x xs ih =>
    intro b hab hba
    cases b with
    | nil => simp [lexLe] at hab
    | cons y ys =>
      by_cases h1 : x.toNat < y.toNat
      · simp [lexLe, h1, Nat.lt_asymm h1] at hba
      · by_cases h2 : y.toNat < x.toNat
        · simp [lexLe, h1, h2] at hab
        · have hx : x = y := charEq_of_toNat_eq (by omega)
          rw [lexLe, if_neg h1, if_neg h2] at hab
          rw [lexLe, if_neg h2, if_neg h1] at hba
          rw [hx, ih hab hba]

theorem lexLe_trans : ∀ {a b c : List Char}, lexLe a b = true → lexLe b c = true → lexLe a c = true := by
  intro a
  induction a with
  | nil => intro b c _ _; rfl
  | cons x xs ih =>
    intro b c hab hbc
    cases b with
    | nil => simp [lexLe] at hab
    | cons y ys =>
      cases c with
      | nil => simp [lexLe] at hbc
      | cons z zs =>
        rw [lexLe] at hab hbc ⊢
        by_cases hxy : x.toNat < y.toNat <;> by_cases hyz : y.toNat < z.toNat
        · rw [if_pos (by omega)]
        · have hzy : ¬ z.toNat < y.toNat := by
            by_contra hc
            rw [if_neg (by omega), if_pos hc] at hbc
            exact Bool.false_ne_true hbc
          rw [if_pos (by omega)]
        · have hyx : ¬ y.toNat < x.toNat := by
            by_contra hc
            rw [if_neg hxy, if_pos hc] at hab
            exact Bool.false_ne_true hab
          rw [if_pos (by omega)]
        · have hyx : ¬ y.toNat < x.toNat := by
            by_contra hc
            rw [if_neg hxy, if_pos hc] at hab
            exact Bool.false_ne_true hab
          have hzy : ¬ z.toNat < y.toNat := by
            by_contra hc
            rw [if_neg hyz, if_pos hc] at hbc
            exact Bool.false_ne_true hbc
          rw [if_neg hxy, if_neg hyx] at hab
          rw [if_neg hyz, if_neg hzy] at hbc
          rw [if_neg (by omega), if_neg (by omega)]
          exact ih hab hbc

theorem strLe_total (a b : String) : strLe a b = true ∨ strLe b a = true := lexLe_total a.data b.data

theorem strLe_antisymm {a b : String} (h1 : strLe a b = true) (h2 : strLe b a = true) : a = b := by
  have := lexLe_antisymm h1 h2
  cases a; cases b; simp at this; rw [this]

theorem strLe_trans {a b c : String} (h1 : strLe a b = true) (h2 : strLe b c = true) :
    strLe a c = true := lexLe_trans h1 h2

theorem mem_insertSorted {x y : String} : ∀ {l : List String},
    x ∈ insertSorted y l ↔ x = y ∨ x ∈ l := by
  intro l
  induction l with
  | nil => simp [insertSorted]
  | cons a t ih =>
    rw [insertSorted]
    by_cases h : strLe y a = true
    · simp [h]
    · simp only [Bool.not_eq_true] at h
      simp only [h, Bool.false_eq_true, if_false, List.mem_cons, ih]
      tauto

theorem pairwise_insertSorted {y : String} : ∀ {l : List String},
    List.Pairwise (fun a b => strLe a b = true) l →
    List.Pairwise (fun a b => strLe a b = true) (insertSorted y l) := by
  intro l
  induction l with
  | nil => intro _; simp [insertSorted]
  | cons a t ih =>
    intro hp
    rw [insertSorted]
    obtain ⟨ha, ht⟩ := List.pairwise_cons.mp hp
    by_cases h : strLe y a = true
    · rw [if_pos h]
      refine List.pairwise_cons.mpr ⟨?_, hp⟩
      intro b hb
      rcases List.mem_cons.mp hb with rfl | hb
      · exact h
      · exact strLe_trans h (ha b hb)
    · rw [if_neg h]
      refine List.pairwise_cons.mpr ⟨?_, ih ht⟩
      intro b hb
      rcases mem_insertSorted.mp hb with rfl | hb
      · rcases strLe_total a b with hab | hba
        · exact hab
        · exact absurd hba h
      · exact ha b hb

theorem mem_sortKeys {x : String} : ∀ {l : List String}, x ∈ sortKeys l ↔ x ∈ l := by
  intro l
  induction l with
  | nil => simp [sortKeys]
  | cons a t ih => rw [sortKeys]; rw [mem_insertSorted]; simp [ih]

theorem pairwise_sortKeys : ∀ (l : List String),
    List.Pairwise (fun a b => strLe a b = true) (sortKeys l) := by
  intro l
  induction l with
  | nil => simp [sortKeys]
  | cons a t ih => rw [sortKeys]; exact pairwise_insertSorted ih

theorem nodup_insertSorted {y : String} : ∀ {l : List String},
    y ∉ l → l.Nodup → (insertSorted y l).Nodup := by
  intro l
  induction l with
  | nil => intro _ _; simp [insertSorted]
  | cons a t ih =>
    intro hy hn
    rw [insertSorted]
    obtain ⟨ha, ht⟩ := List.nodup_cons.mp hn
    by_cases h : strLe y a = true
    · rw [if_pos h]
      exact List.nodup_cons.mpr ⟨hy, hn⟩
    · rw [if_neg h]
      refine List.nodup_cons.mpr ⟨?_, ih (fun hc => hy (List.mem_cons_of_mem a hc)) ht⟩
      intro hc
      rcases mem_insertSorted.mp hc with rfl | hc
      · exact hy (List.mem_cons_self a t)
      · exact ha hc

theorem nodup_sortKeys : ∀ {l : List String}, l.Nodup → (sortKeys l).Nodup := by
  intro l
  induction l with
  | nil => intro _; simp [sortKeys]
  | cons a t ih =>
    intro hn
    obtain ⟨ha, ht⟩ := List.nodup_cons.mp hn
    rw [sortKeys]
    exact nodup_insertSorted (fun hc => ha (mem_sortKeys.mp hc)) (ih ht)

theorem distinctKeys_nodup : ∀ {l : List String}, distinctKeys l = true → l.Nodup := by
  intro l
  induction l with
  | nil => intro _; exact List.nodup_nil
  | cons a t ih =>
    intro h
    rw [distinctKeys, Bool.and_eq_true] at h
    refine List.nodup_cons.mpr ⟨?_, ih h.2⟩
    intro hc
    have := h.1
    rw [Bool.not_eq_true' ] at this
    exact absurd (List.elem_iff.mpr hc) (by simpa using this)

theorem sorted_nodup_ext {l1 l2 : List String}
    (hs1 : List.Pairwise (fun a b => strLe a b = true) l1)
    (hs2 : List.Pairwise (fun a b => strLe a b = true) l2)
    (hn1 : l1.Nodup) (hn2 : l2.Nodup)
    (hm : ∀ x, x ∈ l1 ↔ x ∈ l2) : l1 = l2 := by
  refine List.Perm.eq_of_sorted (fun a b _ _ hab hba => strLe_antisymm hab hba) hs1 hs2 ?_
  exact (List.perm_ext_iff_of_nodup hn1 hn2).mpr hm

theorem lookup_isSome_iff {β : Type} (l : List (String × β)) (k : String) :
    (l.lookup k).isSome = true ↔ k ∈ l.map Prod.fst := by
  induction l with
  | nil => simp [List.lookup]
  | cons a t ih =>
    rw [show (a :: t).lookup k = if k == a.1 then some a.2 else t.lookup k by
      cases a; rw [List.lookup_cons]; split <;> simp_all]
    by_cases h : k == a.1
    · simp [h]
      left
      exact beq_iff_eq.mp h
    · rw [if_neg h]
      rw [ih]
      simp only [List.map_cons, List.mem_cons]
      constructor
      · exact fun hh => Or.inr hh
      · intro hh
        rcases hh with hh | hh
        · exact absurd (beq_iff_eq.mpr hh) (by simpa using h)
        · exact hh

theorem filterMap_eq_filterMap_filter {α β : Type} (f : α → Option β) (l : List α) :
    l.filterMap f = (l.filter (fun a => (f a).isSome)).filterMap f := by
  induction l with
  | nil => rfl
  | cons a t ih =>
    rw [List.filterMap_cons, List.filter_cons]
    cases hf : f a with
    | none => simp [hf, List.filterMap_cons, ih]
    | some b => simp [hf, List.filterMap_cons, ih]

theorem renderMembers_keys_congr (K1 K2 : List String) (rendered : List (String × String))
    (hfilter : K1.filter (fun k => (rendered.lookup k).isSome) =
               K2.filter (fun k => (rendered.lookup k).isSome)) :
    renderMembers (some K1) rendered = renderMembers (some K2) rendered := by
  show K1.filterMap (fun k => (rendered.lookup k).map (fun rv => quoteJSONString k ++ ":" ++ rv)) =
    K2.filterMap (fun k => (rendered.lookup k).map (fun rv => quoteJSONString k ++ ":" ++ rv))
  rw [filterMap_eq_filterMap_filter]
  conv_rhs => rw [filterMap_eq_filterMap_filter]
  have hiso : ∀ (K : List String),
      K.filter (fun k => ((rendered.lookup k).map (fun rv => quoteJSONString k ++ ":" ++ rv)).isSome) =
      K.filter (fun k => (rendered.lookup k).isSome) := by
    intro K
    apply List.filter_congr
    intro k _
    cases rendered.lookup k <;> simp
  rw [hiso, hiso, hfilter]

theorem Json.myInduction (motive : Json → Prop)
    (hnull : motive .null) (hbool : ∀ b, motive (.bool b)) (hnum : ∀ n, motive (.num n))
    (hstr : ∀ s, motive (.str s))
    (harr : ∀ xs, (∀ x ∈ xs, motive x) → motive (.arr xs))
    (hobj : ∀ fs, (∀ kv ∈ fs, motive (Prod.snd kv)) → motive (.obj fs)) :
    ∀ j, motive j
  | .null => hnull
  | .bool b => hbool b
  | .num n => hnum n
  | .str s => hstr s
  | .arr xs => harr xs (fun x hx =>
      have : sizeOf x < 1 + sizeOf xs := by
        have := List.sizeOf_lt_of_mem hx
        omega
      Json.myInduction motive hnull hbool hnum hstr harr hobj x)
  | .obj fs => hobj fs (fun kv hkv =>
      have : sizeOf kv.2 < 1 + sizeOf fs := by
        have h1 := List.sizeOf_lt_of_mem hkv
        have h2 : sizeOf kv.2 < sizeOf kv := by
          cases kv
          simp only [Prod.mk.sizeOf_spec]
          omega
        omega
      Json.myInduction motive hnull hbool hnum hstr harr hobj kv.2)
termination_by j => sizeOf j

theorem jsonWFElems_iff {xs : List Json} : jsonWFElems xs = true ↔ ∀ x ∈ xs, jsonWF x = true := by
  induction xs with
  | nil => simp [jsonWFElems]
  | cons x t ih => rw [jsonWFElems, Bool.and_eq_true, ih]; simp

theorem jsonWFFields_iff {fs : List (String × Json)} :
    jsonWFFields fs = true ↔ ∀ kv ∈ fs, jsonWF (Prod.snd kv) = true := by
  induction fs with
  | nil => simp [jsonWFFields]
  | cons kv t ih =>
    cases kv
    rw [jsonWFFields, Bool.and_eq_true, ih]
    simp

theorem deepKeysInElems_iff {K : List String} {xs : List Json} :
    deepKeysInElems K xs = true ↔ ∀ x ∈ xs, deepKeysIn K x = true := by
  induction xs with
  | nil => simp [deepKeysInElems]
  | cons x t ih => rw [deepKeysInElems, Bool.and_eq_true, ih]; simp

theorem deepKeysInFields_iff {K : List String} {fs : List (String × Json)} :
    deepKeysInFields K fs = true ↔ ∀ kv ∈ fs, deepKeysIn K (Prod.snd kv) = true := by
  induction fs with
  | nil => simp [deepKeysInFields]
  | cons kv t ih =>
    cases kv
    rw [deepKeysInFields, Bool.and_eq_true, ih]
    simp

theorem stringifyElems_congr (K : Option (List String)) (xs : List Json)
    (h : ∀ x ∈ xs, stringifyVal K x = canonicalSpecVal x) :
    stringifyElems K xs = canonicalSpecElems xs := by
  induction xs with
  | nil => rfl
  | cons x t ih =>
    rw [stringifyElems, canonicalSpecElems, h x (List.mem_cons_self x t),
      ih (fun y hy => h y (List.mem_cons_of_mem x hy))]

theorem renderFields_congr (K : Option (List String)) (fs : List (String × Json))
    (h : ∀ kv ∈ fs, stringifyVal K (Prod.snd kv) = canonicalSpecVal (Prod.snd kv)) :
    renderFields K fs = canonicalSpecFields fs := by
  induction fs with
  | nil => rfl
  | cons kv t ih =>
    cases kv with
    | mk k v =>
      rw [renderFields, canonicalSpecFields, h (k, v) (List.mem_cons_self _ t),
        ih (fun y hy => h y (List.mem_cons_of_mem _ hy))]

theorem canonicalSpecFields_keys (fs : List (String × Json)) :
    (canonicalSpecFields fs).map Prod.fst = fs.map Prod.fst := by
  induction fs with
  | nil => rfl
  | cons kv t ih =>
    cases kv
    rw [canonicalSpecFields]
    simp [ih]

theorem stringify_replacer_eq_spec (K : List String)
    (hKs : List.Pairwise (fun a b => strLe a b = true) K) (hKn : K.Nodup) :
    ∀ j, jsonWF j = true → deepKeysIn K j = true →
    stringifyVal (some K) j = canonicalSpecVal j := by
  intro j
  induction j using Json.myInduction with
  | hnull => intro _ _; rfl
  | hbool b => intro _ _; rfl
  | hnum n => intro _ _; rfl
  | hstr s => intro _ _; rfl
  | harr xs ih =>
    intro hwf hdk
    rw [stringifyVal, canonicalSpecVal]
    rw [stringifyElems_congr (some K) xs (fun x hx =>
      ih x hx (jsonWFElems_iff.mp (by simpa [jsonWF] using hwf) x hx)
        (deepKeysInElems_iff.mp (by simpa [deepKeysIn] using hdk) x hx))]
  | hobj fs ih =>
    intro hwf hdk
    rw [stringifyVal, canonicalSpecVal]
    have hwf2 : distinctKeys (fs.map Prod.fst) = true ∧ jsonWFFields fs = true := by
      simpa [jsonWF, Bool.and_eq_true] using hwf
    have hdk2 : ((fs.map Prod.fst).all (fun k => K.contains k)) = true ∧ deepKeysInFields K fs = true := by
      simpa [deepKeysIn, Bool.and_eq_true] using hdk
    have hsub : ∀ k ∈ fs.map Prod.fst, k ∈ K := by
      intro k hk
      have := List.all_eq_true.mp hdk2.1 k hk
      exact List.elem_iff.mp (by simpa using this)
    have hfields : renderFields (some K) fs = canonicalSpecFields fs :=
      renderFields_congr (some K) fs (fun kv hkv =>
        ih kv hkv (jsonWFFields_iff.mp hwf2.2 kv hkv)
          (deepKeysInFields_iff.mp hdk2.2 kv hkv))
    rw [hfields]
    have hkeymem : ∀ k, ((canonicalSpecFields fs).lookup k).isSome = true ↔ k ∈ fs.map Prod.fst := by
      intro k
      rw [lookup_isSome_iff, canonicalSpecFields_keys]
    have hfeq : K.filter (fun k => ((canonicalSpecFields fs).lookup k).isSome) =
        (sortKeys (fs.map Prod.fst)).filter (fun k => ((canonicalSpecFields fs).lookup k).isSome) := by
      have hright : (sortKeys (fs.map Prod.fst)).filter
          (fun k => ((canonicalSpecFields fs).lookup k).isSome) = sortKeys (fs.map Prod.fst) := by
        rw [List.filter_eq_self]
        intro k hk
        exact (hkeymem k).mpr (mem_sortKeys.mp hk)
      rw [hright]
      refine sorted_nodup_ext (List.Pairwise.filter _ hKs) (pairwise_sortKeys _)
        (List.Nodup.filter _ hKn) (nodup_sortKeys (distinctKeys_nodup hwf2.1)) ?_
      intro x
      rw [List.mem_filter, mem_sortKeys, hkeymem]
      constructor
      · exact fun hh => hh.2
      · exact fun hh => ⟨hsub x hh, hh⟩
    rw [renderMembers_keys_congr K (sortKeys (fs.map Prod.fst)) (canonicalSpecFields fs) hfeq]

theorem deepKeysIn_congr (K K' : List String) (hm : ∀ x, x ∈ K ↔ x ∈ K') :
    ∀ j, deepKeysIn K j = deepKeysIn K' j := by
  intro j
  have hc : ∀ k, K.contains k = K'.contains k := by
    intro k
    cases h1 : K.contains k <;> cases h2 : K'.contains k <;> try rfl
    · exact absurd (List.elem_iff.mpr ((hm k).mpr (List.elem_iff.mp (by simpa using h2))))
        (by simpa using h1)
    · exact absurd (List.elem_iff.mpr ((hm k).mp (List.elem_iff.mp (by simpa using h1))))
        (by simpa using h2)
  induction j using Json.myInduction with
  | hnull => rfl
  | hbool b => rfl
  | hnum n => rfl
  | hstr s => rfl
  | harr xs ih =>
    show deepKeysInElems K xs = deepKeysInElems K' xs
    induction xs with
    | nil => rfl
    | cons x t iht =>
      rw [deepKeysInElems, deepKeysInElems, ih x (List.mem_cons_self x t),
        iht (fun y hy => ih y (List.mem_cons_of_mem x hy))]
  | hobj fs ih =>
    show ((fs.map Prod.fst).all (fun k => K.contains k) && deepKeysInFields K fs) =
      ((fs.map Prod.fst).all (fun k => K'.contains k) && deepKeysInFields K' fs)
    have h2 : deepKeysInFields K fs = deepKeysInFields K' fs := by
      induction fs with
      | nil => rfl
      | cons kv t iht =>
        cases kv with
        | mk k v =>
          rw [deepKeysInFields, deepKeysInFields, ih (k, v) (List.mem_cons_self _ t),
            iht (fun y hy => ih y (List.mem_cons_of_mem _ hy))]
    have h1 : (fs.map Prod.fst).all (fun k => K.contains k) =
        (fs.map Prod.fst).all (fun k => K'.contains k) := by
      induction fs.map Prod.fst with
      | nil => rfl
      | cons a t iht => rw [List.all_cons, List.all_cons, hc a, iht]
    rw [h1, h2]

/-- C2 (amended): for a mapping with duplicate-free keys at every level
whose nested-mapping keys all occur among the top-level keys,
`canonicalize` agrees with the spec's canonical serialization (ascending
code-point key order at every level, every entry preserved). -/
theorem canonicalize_eq_spec_of_keys_subset (fs : List (String × Json))
    (hwf : jsonWF (.obj fs) = true)
    (hdeep : deepKeysIn (keysOf fs) (.obj fs) = true) :
    canonicalize fs = canonicalSpecSerialization fs := by
  have hdeep2 : deepKeysIn (sortKeys (keysOf fs)) (.obj fs) = true := by
    rw [deepKeysIn_congr (sortKeys (keysOf fs)) (keysOf fs) (fun x => mem_sortKeys)]
    exact hdeep
  have hnd : (keysOf fs).Nodup := by
    refine distinctKeys_nodup ?_
    have := hwf
    rw [jsonWF, Bool.and_eq_true] at this
    exact this.1
  exact stringify_replacer_eq_spec (sortKeys (keysOf fs)) (pairwise_sortKeys _)
    (nodup_sortKeys hnd) (.obj fs) hwf hdeep2

/-- C2 witness: the amended equality evaluated on a concrete nested
mapping whose nested key also occurs at the top level. -/
theorem canonicalize_eq_spec_witness :
    jsonWF (.obj nestedOkExample) = true ∧
    deepKeysIn (keysOf nestedOkExample) (.obj nestedOkExample) = true ∧
    canonicalize nestedOkExample = canonicalSpecSerialization nestedOkExample ∧
    canonicalize nestedOkExample = "\x7b\"a\":1,\"b\":\x7b\"a\":2\x7d\x7d" := by
  refine ⟨by decide, by decide, ?_, by rfl⟩
  exact canonicalize_eq_spec_of_keys_subset nestedOkExample (by decide) (by decide)

theorem mapGet_mapSet_self (m : Hist) (k : String) (v : List Int) :
    mapGet (mapSet m k v) k = v := by
  induction m with
  | nil => simp [mapSet, mapGet, List.find?]
  | cons a t ih =>
    cases a with
    | mk k' v' =>
      rw [mapSet]
      by_cases h : k' == k
      · rw [if_pos h]
        simp [mapGet, List.find?]
      · rw [if_neg h]
        have hstep : List.find? (fun (e : String × List Int) => e.1 == k) ((k', v') :: mapSet t k v) =
            List.find? (fun e => e.1 == k) (mapSet t k v) := by
          rw [List.find?]
          have hb : (k' == k) = false := by simpa using h
          simp [hb]
        rw [mapGet, hstep, ← mapGet]
        exact ih

theorem mapGet_mapDelete_self (m : Hist) (k : String) :
    mapGet (mapDelete m k) k = [] := by
  rw [mapGet]
  have : (mapDelete m k).find? (fun e => e.1 == k) = none := by
    rw [List.find?_eq_none]
    intro e he
    have := (List.mem_filter.mp he).2
    simpa using this
  rw [this]
  rfl

theorem pruneInMemory_get (w now : Int) (h : Hist) (s : String) :
    mapGet (pruneInMemory w now h s).2 s = (pruneInMemory w now h s).1 := by
  rw [pruneInMemory]
  by_cases he : ((mapGet h s).filter (fun t => decide (now - w < t))).isEmpty
  · simp only [he, if_pos]
    rw [mapGet_mapDelete_self]
    exact (List.isEmpty_iff.mp he).symm
  · simp only [he, Bool.false_eq_true, if_neg, if_false]
    exact mapGet_mapSet_self _ _ _

theorem argFold_fst (a : String) : ∀ (l : List ArgKeyword) (acc : Int × List String),
    (l.foldl (fun acc kw =>
      if kw.test a then
        (acc.1 + kw.boost,
         acc.2 ++ ["argument contains \"" ++ kw.source ++ "\" (+" ++ intToString kw.boost ++ ")"])
      else acc) acc).1
    = acc.1 + ((l.filter (fun kw => kw.test a)).map (fun kw => kw.boost)).sum := by
  intro l
  induction l with
  | nil => intro acc; simp
  | cons kw t ih =>
    intro acc
    rw [List.foldl_cons, List.filter_cons]
    by_cases h : kw.test a
    · rw [if_pos h, if_pos h, ih]
      simp
      omega
    · rw [if_neg h, if_neg (by simpa using h), ih]

theorem ceil_div_1000 (a : Int) : (⌈((a : ℚ)) / 1000⌉ : Int) = (a + 999).ediv 1000 := by
  have h1 : ((a : ℚ)) / 1000 = -(((-a : Int) : ℚ) / ((1000 : ℕ) : ℚ)) := by push_cast; ring
  rw [h1, Int.ceil_neg, Rat.floor_intCast_div_natCast]
  show -((-a) / (1000 : Int)) = (a + 999) / 1000
  omega

theorem dropWhile_eq_filter_of_sorted (cutoff : Int) :
    ∀ {l : List Int}, List.Pairwise (fun a b => a ≤ b) l →
    l.dropWhile (fun t => decide (t ≤ cutoff)) = l.filter (fun t => decide (cutoff < t)) := by
  intro l
  induction l with
  | nil => intro _; rfl
  | cons a t ih =>
    intro hp
    obtain ⟨ha, ht⟩ := List.pairwise_cons.mp hp
    by_cases h : a ≤ cutoff
    · rw [List.dropWhile_cons_of_pos (by simpa using h), List.filter_cons_of_neg (by simpa using h)]
      exact ih ht
    · rw [List.dropWhile_cons_of_neg (by simpa using h), List.filter_cons_of_pos (by simpa using h)]
      have : t.filter (fun x => decide (cutoff < x)) = t := by
        rw [List.filter_eq_self]
        intro b hb
        have := ha b hb
        simp
        omega
      rw [this]

/-- C8: `RateLimiter.check` denies exactly when the number of recorded
timestamps strictly within the last 60 s reaches the per-key override
(else global rpm) plus burst; on denial `retryAfterSecs` is
the ceiling of (oldest + 60000 − now) / 1000 and at least 1, and the
request is not recorded; on allowance `now` is appended.  The window is
sorted because `now` is nondecreasing across calls; a positive cap keeps
the pruned window non-empty on the denial path (matching the source,
which indexes the deque there). -/
theorem rateLimiter_check_spec (rl : RateLimiter) (key : String) (now : Int)
    (hsorted : List.Pairwise (fun a b => a ≤ b) (mapGet rl.windows key))
    (hcap : 0 < (intMapGet? rl.overrides key).getD rl.defaults.rpm + rl.defaults.burst) :
    ((rateCheck rl key now).1.allowed = false ↔
      ((((mapGet rl.windows key).filter (fun t => decide (now - 60000 < t))).length : Int) ≥
        (intMapGet? rl.overrides key).getD rl.defaults.rpm + rl.defaults.burst)) ∧
    (rateCheck rl key now).1.limit =
      (intMapGet? rl.overrides key).getD rl.defaults.rpm + rl.defaults.burst ∧
    ((rateCheck rl key now).1.allowed = false →
      (rateCheck rl key now).1.retryAfterSecs =
        max 1 ⌈(((((mapGet rl.windows key).filter (fun t => decide (now - 60000 < t))).headD 0 +
          60000 - now : Int) : ℚ)) / 1000⌉ ∧
      mapGet (rateCheck rl key now).2.windows key =
        (mapGet rl.windows key).filter (fun t => decide (now - 60000 < t))) ∧
    ((rateCheck rl key now).1.allowed = true →
      mapGet (rateCheck rl key now).2.windows key =
        (mapGet rl.windows key).filter (fun t => decide (now - 60000 < t)) ++ [now]) := by
  have hdf := dropWhile_eq_filter_of_sorted (now - 60000) hsorted
  simp only [rateCheck]
  rw [hdf]
  by_cases hfull : (((mapGet rl.windows key).filter (fun t => decide (now - 60000 < t))).length : Int) ≥
      (intMapGet? rl.overrides key).getD rl.defaults.rpm + rl.defaults.burst
  · rw [if_pos hfull]
    refine ⟨by simpa using hfull, rfl, ?_, ?_⟩
    · intro _
      refine ⟨?_, mapGet_mapSet_self _ _ _⟩
      rw [ceil_div_1000]
    · intro hc
      simp at hc
  · rw [if_neg hfull]
    refine ⟨by simpa using hfull, rfl, ?_, ?_⟩
    · intro hc
      simp at hc
    · intro _
      exact mapGet_mapSet_self _ _ _

/-- C8 witness: a full window of three timestamps against a cap of
2+1 at a concrete clock. -/
theorem rateLimiter_check_spec_witness :
    List.Pairwise (fun a b => a ≤ b) (mapGet wRateLimiter.windows "k") ∧
    (0 : Int) < (intMapGet? wRateLimiter.overrides "k").getD wRateLimiter.defaults.rpm +
      wRateLimiter.defaults.burst ∧
    (((rateCheck wRateLimiter "k" 30000).1.allowed = false ↔
      ((((mapGet wRateLimiter.windows "k").filter (fun t => decide ((30000 : Int) - 60000 < t))).length : Int) ≥
        (intMapGet? wRateLimiter.overrides "k").getD wRateLimiter.defaults.rpm +
          wRateLimiter.defaults.burst)) ∧
    (rateCheck wRateLimiter "k" 30000).1.limit =
      (intMapGet? wRateLimiter.overrides "k").getD wRateLimiter.defaults.rpm +
        wRateLimiter.defaults.burst ∧
    ((rateCheck wRateLimiter "k" 30000).1.allowed = false →
      (rateCheck wRateLimiter "k" 30000).1.retryAfterSecs =
        max 1 ⌈(((((mapGet wRateLimiter.windows "k").filter
          (fun t => decide ((30000 : Int) - 60000 < t))).headD 0 + 60000 - 30000 : Int) : ℚ)) / 1000⌉ ∧
      mapGet (rateCheck wRateLimiter "k" 30000).2.windows "k" =
        (mapGet wRateLimiter.windows "k").filter (fun t => decide ((30000 : Int) - 60000 < t))) ∧
    ((rateCheck wRateLimiter "k" 30000).1.allowed = true →
      mapGet (rateCheck wRateLimiter "k" 30000).2.windows "k" =
        (mapGet wRateLimiter.windows "k").filter (fun t => decide ((30000 : Int) - 60000 < t)) ++ [30000])) := by
  refine ⟨by decide, by decide, ?_⟩
  exact rateLimiter_check_spec wRateLimiter "k" 30000 (by decide) (by decide)

theorem isPrefixOf_append_self : ∀ (xs ys : List Char), xs.isPrefixOf (xs ++ ys) = true := by
  intro xs ys
  induction xs with
  | nil => simp [List.isPrefixOf]
  | cons p ps ih => simp [List.isPrefixOf, ih]

theorem removeFirstL_drop_self (pat rest : List Char) (h : pat ≠ []) :
    removeFirstL pat (pat ++ rest) = rest := by
  cases pat with
  | nil => exact absurd rfl h
  | cons p ps =>
    show removeFirstL (p :: ps) (p :: (ps ++ rest)) = rest
    rw [removeFirstL]
    rw [show (p :: (ps ++ rest)) = (p :: ps) ++ rest from rfl]
    rw [isPrefixOf_append_self]
    simp only [if_pos]
    exact List.drop_left _ _

theorem removeFirstL_skip (p : Char) (ps : List Char) (s1 s2 : List Char)
    (h : ∀ c ∈ s1, c ≠ p) :
    removeFirstL (p :: ps) (s1 ++ s2) = s1 ++ removeFirstL (p :: ps) s2 := by
  induction s1 with
  | nil => rfl
  | cons c t ih =>
    show removeFirstL (p :: ps) (c :: (t ++ s2)) = _
    rw [removeFirstL]
    have hpre : (p :: ps).isPrefixOf (c :: (t ++ s2)) = false := by
      have hc : c ≠ p := h c (List.mem_cons_self c t)
      simp [List.isPrefixOf]
      intro hp
      exact absurd hp.symm hc
    rw [hpre]
    simp only [Bool.false_eq_true, if_false, List.cons_append]
    rw [ih (fun x hx => h x (List.mem_cons_of_mem c hx))]

theorem b64Char_mem (n : Nat) : b64Char n ∈ base64Alphabet := by
  unfold b64Char
  by_cases h : n < base64Alphabet.length
  · rw [List.getD_eq_getElem _ _ h]
    exact List.getElem_mem h
  · rw [List.getD_eq_default _ _ (by omega)]
    decide

theorem base64Encode_chars : ∀ (bs : List Nat), ∀ c ∈ base64Encode bs, c ∈ base64Alphabet ∨ c = '='
  | [] => by simp [base64Encode]
  | [a] => by
    intro c hc
    simp [base64Encode] at hc
    rcases hc with h | h | h
    · exact Or.inl (h ▸ b64Char_mem _)
    · exact Or.inl (h ▸ b64Char_mem _)
    · exact Or.inr h
  | [a, b] => by
    intro c hc
    simp [base64Encode] at hc
    rcases hc with h | h | h | h
    · exact Or.inl (h ▸ b64Char_mem _)
    · exact Or.inl (h ▸ b64Char_mem _)
    · exact Or.inl (h ▸ b64Char_mem _)
    · exact Or.inr h
  | a :: b :: c' :: rest => by
    intro c hc
    simp only [base64Encode, List.mem_cons] at hc
    rcases hc with h | h | h | h | h
    · exact Or.inl (h ▸ b64Char_mem _)
    · exact Or.inl (h ▸ b64Char_mem _)
    · exact Or.inl (h ▸ b64Char_mem _)
    · exact Or.inl (h ▸ b64Char_mem _)
    · exact base64Encode_chars rest c h

theorem base64Alphabet_no_dash : ∀ c ∈ base64Alphabet, c ≠ '-' := by decide

theorem base64Alphabet_no_ws : ∀ c ∈ base64Alphabet, isJsWS c = false := by decide

theorem b64_split_header (raw : List Nat) :
    base64Encode (ed25519SpkiHeader ++ raw) =
    "MCowBQYDK2VwAyEA".data ++ base64Encode raw := by rfl

theorem fingerprint_of_spkiPem (raw : List Nat) :
    publicKeyFingerprint (spkiPem raw) = "MCowBQYDK2VwAyEA" := by
  unfold publicKeyFingerprint
  have h1 : removeFirstL "-----BEGIN PUBLIC KEY-----".data (spkiPem raw).data
      = '\n' :: (base64Encode (ed25519SpkiHeader ++ raw) ++
        ('\n' :: ("-----END PUBLIC KEY-----".data ++ ['\n']))) := by
    rw [show (spkiPem raw).data = "-----BEGIN PUBLIC KEY-----".data ++
      ('\n' :: (base64Encode (ed25519SpkiHeader ++ raw) ++
        ('\n' :: ("-----END PUBLIC KEY-----".data ++ ['\n'])))) from rfl]
    exact removeFirstL_drop_self _ _ (by decide)
  rw [h1]
  have hmem : ∀ c ∈ ('\n' :: (base64Encode (ed25519SpkiHeader ++ raw) ++ ['\n'])), c ≠ '-' := by
    intro c hc
    rcases List.mem_cons.mp hc with rfl | hc
    · decide
    · rcases List.mem_append.mp hc with hc | hc
      · rcases base64Encode_chars _ c hc with hm | rfl
        · exact base64Alphabet_no_dash c hm
        · decide
      · simp at hc
        rw [hc]
        decide
  have h2 : removeFirstL "-----END PUBLIC KEY-----".data
      ('\n' :: (base64Encode (ed25519SpkiHeader ++ raw) ++
        ('\n' :: ("-----END PUBLIC KEY-----".data ++ ['\n']))))
      = ('\n' :: (base64Encode (ed25519SpkiHeader ++ raw) ++ ['\n'])) ++ ['\n'] := by
    rw [show ('\n' :: (base64Encode (ed25519SpkiHeader ++ raw) ++
        ('\n' :: ("-----END PUBLIC KEY-----".data ++ ['\n']))))
      = ('\n' :: (base64Encode (ed25519SpkiHeader ++ raw) ++ ['\n'])) ++
        ("-----END PUBLIC KEY-----".data ++ ['\n']) by simp]
    rw [show "-----END PUBLIC KEY-----".data = '-' :: "----END PUBLIC KEY-----".data from rfl]
    rw [removeFirstL_skip _ _ _ _ hmem]
    rw [show ('-' :: "----END PUBLIC KEY-----".data) = "-----END PUBLIC KEY-----".data from rfl]
    rw [removeFirstL_drop_self _ _ (by decide)]
  rw [h2]
  have h3 : ((('\n' :: (base64Encode (ed25519SpkiHeader ++ raw) ++ ['\n'])) ++ ['\n']).filter
      (fun c => !isJsWS c)) = base64Encode (ed25519SpkiHeader ++ raw) := by
    rw [List.filter_append, List.filter_cons, List.filter_append]
    have he : (base64Encode (ed25519SpkiHeader ++ raw)).filter (fun c => !isJsWS c) =
        base64Encode (ed25519SpkiHeader ++ raw) := by
      rw [List.filter_eq_self]
      intro c hc
      rcases base64Encode_chars _ c hc with hm | rfl
      · simp [base64Alphabet_no_ws c hm]
      · decide
    rw [he]
    simp [isJsWS]
  rw [h3]
  rw [b64_split_header]
  rw [show (16 : Nat) = "MCowBQYDK2VwAyEA".data.length from rfl]
  show (⟨List.take "MCowBQYDK2VwAyEA".data.length
    ("MCowBQYDK2VwAyEA".data ++ base64Encode raw)⟩ : String) = "MCowBQYDK2VwAyEA"
  rw [List.take_left]

/-- C10: `publicKeyFingerprint` returns the same 16-character string
for every Ed25519 SPKI PEM produced by `generateKeyPair` — the first 16
base64 characters encode exactly the fixed 12-byte RFC 8410 header, not
any key-specific bytes. -/
theorem publicKeyFingerprint_collision (raw1 raw2 : List Nat)
    (h1 : raw1.length = 32) (h2 : raw2.length = 32) :
    publicKeyFingerprint (spkiPem raw1) = publicKeyFingerprint (spkiPem raw2) ∧
    publicKeyFingerprint (spkiPem raw1) = "MCowBQYDK2VwAyEA" := by
  rw [fingerprint_of_spkiPem, fingerprint_of_spkiPem]
  exact ⟨rfl, rfl⟩

/-- C10 witness: two concrete distinct 32-byte keys share the
fingerprint "MCowBQYDK2VwAyEA". -/
theorem publicKeyFingerprint_collision_witness :
    (List.replicate 32 (1 : Nat)).length = 32 ∧ (List.replicate 32 (2 : Nat)).length = 32 ∧
    (publicKeyFingerprint (spkiPem (List.replicate 32 1)) =
      publicKeyFingerprint (spkiPem (List.replicate 32 2)) ∧
    publicKeyFingerprint (spkiPem (List.replicate 32 1)) = "MCowBQYDK2VwAyEA") :=
  ⟨by decide, by decide,
    publicKeyFingerprint_collision (List.replicate 32 1) (List.replicate 32 2) (by decide) (by decide)⟩

theorem buildDenyResponse_decomp (rid : Json) :
    buildDenyResponse rid =
    (("\x7b" ++ (((("\"jsonrpc\":\"2.0\"" ++ ",") ++ ("\"id\":" ++ stringifyPlain rid)) ++ ",") ++
      "\"error\":\x7b\"code\":-32600,\"message\":\"Quint: tool call denied by policy\"\x7d")) ++ "\x7d") := by
  rfl

/-- C7 counterexample: the deny response the relay actually emits
carries the message "Quint: tool call denied by policy", not the exact
message "tool call denied by policy" the claim states. -/
theorem deny_response_message_not_exact :
    (handleParentMessage mechanicExactPolicy "builder-mcp" {} [] 0 (some mechanicCallMsg) "line").1.toParent =
      ["\x7b\"jsonrpc\":\"2.0\",\"id\":1,\"error\":\x7b\"code\":-32600,\"message\":\"Quint: tool call denied by policy\"\x7d\x7d"] ∧
    (handleParentMessage mechanicExactPolicy "builder-mcp" {} [] 0 (some mechanicCallMsg) "line").1.toParent ≠
      ["\x7b\"jsonrpc\":\"2.0\",\"id\":1,\"error\":\x7b\"code\":-32600,\"message\":\"tool call denied by policy\"\x7d\x7d"] := by
  exact ⟨rfl, by decide⟩

/-- C7 (amended): for every tools/call request whose policy verdict is
deny, the parent-message handler returns a single JSON-RPC error
response with code -32600, message "Quint: tool call denied by policy"
and the original id, forwards nothing to the child, and logs exactly two
ledger records: the request and the synthetic response, both with
verdict deny. -/
theorem deny_path_two_records (policy : PolicyConfig) (serverName : String) (eng : RiskEngine)
    (hist : Hist) (now : Int) (line : String) (fs : List (String × Json))
    (t : String) (args : Json)
    (hreq : isJsonRpcRequestJ (.obj fs) = true)
    (hmethod : fs.lookup "method" = some (.str "tools/call"))
    (ht : t ≠ "")
    (hinfo : extractToolInfoJ (.obj fs) = some (t, args))
    (hdeny : evaluatePolicy policy serverName (some t) = .deny) :
    (handleParentMessage policy serverName eng hist now (some (.obj fs)) line).1.toParent =
      [buildDenyResponse (rawIdOf (some (.obj fs)))] ∧
    (handleParentMessage policy serverName eng hist now (some (.obj fs)) line).1.toChild = [] ∧
    (handleParentMessage policy serverName eng hist now (some (.obj fs)) line).1.logged =
      [{ serverName := serverName, direction := "request", method := "tools/call",
         messageId := extractIdJ (.obj fs), toolName := some t,
         argumentsJson := some (stringifyPlain args), responseJson := none,
         verdict := .deny, riskScore := none, riskLevel := none },
       { serverName := serverName, direction := "response", method := "tools/call",
         messageId := extractIdJ (.obj fs), toolName := some t,
         argumentsJson := none,
         responseJson := some (buildDenyResponse (rawIdOf (some (.obj fs)))),
         verdict := .deny, riskScore := none, riskLevel := none }] ∧
    (handleParentMessage policy serverName eng hist now (some (.obj fs)) line).2 = hist := by
  have htc : isToolCallRequestJ (.obj fs) = true := by
    simp [isToolCallRequestJ, methodOf, hmethod]
  have hmet : methodOf (.obj fs) = "tools/call" := by
    simp [methodOf, hmethod]
  have hres : inspectRequestJ (some (.obj fs)) serverName policy =
      ⟨some (.obj fs), .deny, some t, some (stringifyPlain args), "tools/call",
        extractIdJ (.obj fs)⟩ := by
    rw [inspectRequestJ, hreq]
    simp only [Bool.not_true, Bool.false_eq_true, if_false, hinfo, htc, if_pos, hmet]
    simp [hdeny]
  rw [handleParentMessage, hres]
  have hfal : toolFalsy (some t) = false := by
    simp [toolFalsy, ht]
  simp only [hfal, Bool.false_or, Bool.or_false]
  simp only [show ((Verdict.deny == Verdict.deny) = true) from rfl, if_pos]
  refine ⟨trivial, trivial, ?_, trivial⟩
  rfl

/-- C7 witness: the deny path evaluated on the concrete
MechanicRunTool call of scenario S1. -/
theorem deny_path_two_records_witness :
    isJsonRpcRequestJ (.obj mechanicCallFields) = true ∧
    mechanicCallFields.lookup "method" = some (.str "tools/call") ∧
    ("MechanicRunTool" : String) ≠ "" ∧
    extractToolInfoJ (.obj mechanicCallFields) = some ("MechanicRunTool", .obj []) ∧
    evaluatePolicy mechanicExactPolicy "builder-mcp" (some "MechanicRunTool") = .deny ∧
    ((handleParentMessage mechanicExactPolicy "builder-mcp" {} [] 0 (some (.obj mechanicCallFields)) "line").1.toParent =
      [buildDenyResponse (rawIdOf (some (.obj mechanicCallFields)))] ∧
    (handleParentMessage mechanicExactPolicy "builder-mcp" {} [] 0 (some (.obj mechanicCallFields)) "line").1.toChild = [] ∧
    (handleParentMessage mechanicExactPolicy "builder-mcp" {} [] 0 (some (.obj mechanicCallFields)) "line").1.logged =
      [{ serverName := "builder-mcp", direction := "request", method := "tools/call",
         messageId := extractIdJ (.obj mechanicCallFields), toolName := some "MechanicRunTool",
         argumentsJson := some (stringifyPlain (.obj [])), responseJson := none,
         verdict := .deny, riskScore := none, riskLevel := none },
       { serverName := "builder-mcp", direction := "response", method := "tools/call",
         messageId := extractIdJ (.obj mechanicCallFields), toolName := some "MechanicRunTool",
         argumentsJson := none,
         responseJson := some (buildDenyResponse (rawIdOf (some (.obj mechanicCallFields)))),
         verdict := .deny, riskScore := none, riskLevel := none }] ∧
    (handleParentMessage mechanicExactPolicy "builder-mcp" {} [] 0 (some (.obj mechanicCallFields)) "line").2 = []) := by
  refine ⟨by decide, by rfl, by decide, by rfl, by rfl, ?_⟩
  exact deny_path_two_records mechanicExactPolicy "builder-mcp" {} [] 0 "line"
    mechanicCallFields "MechanicRunTool" (.obj []) (by decide) (by rfl) (by decide) (by rfl) (by rfl)
/-- C1: the spec and the repository's own test suite state that
`evaluatePolicy` selects servers and tool rules by glob matching (so the
pattern `Mechanic*` denies `MechanicRunTool`), but the shipped
`evaluatePolicy` compares with string equality: under the glob policy the
call is allowed, while the very pattern glob-matches the tool name; only
the exact-name rule denies.  (risk.ts imports `globMatch` from config.js,
which does not define it, so the shipped config.ts is a stale snapshot.) -/
theorem evaluatePolicy_equality_not_glob :
    globMatch "Mechanic*" "MechanicRunTool" = true ∧
    evaluatePolicy mechanicGlobPolicy "builder-mcp" (some "MechanicRunTool") = Verdict.allow ∧
    evaluatePolicy mechanicExactPolicy "builder-mcp" (some "MechanicRunTool") = Verdict.deny := by
  refine ⟨rfl, rfl, rfl⟩

/-- C5: if no server entry's pattern glob-matches the server name and
no literal star entry is present, `evaluatePolicy` returns `deny` for
every tool-name argument, including the null (non-tools/call) case.
(Exact equality implies a glob self-match, so the hypothesis also rules
out the shipped equality-based selection.) -/
theorem evaluatePolicy_fail_closed (config : PolicyConfig) (serverName : String)
    (toolName : Option String)
    (h : ∀ sp ∈ config.servers, globMatch sp.server serverName = false ∧ sp.server ≠ "*") :
    evaluatePolicy config serverName toolName = .deny := by
  unfold evaluatePolicy
  have hf : config.servers.find? (fun sp => sp.server == serverName || sp.server == "*") = none := by
    rw [List.find?_eq_none]
    intro sp hsp
    obtain ⟨hg, hs⟩ := h sp hsp
    simp only [Bool.or_eq_true, beq_iff_eq, not_or]
    constructor
    · intro heq
      rw [heq] at hg
      exact absurd (globMatch_self serverName) (by simp [hg])
    · exact hs
  rw [hf]

/-- C5 witness: fail-closed on the spec's S3 scenario. -/
theorem evaluatePolicy_fail_closed_witness :
    (∀ sp ∈ onlyThisPolicy.servers, globMatch sp.server "other-server" = false ∧ sp.server ≠ "*") ∧
    evaluatePolicy onlyThisPolicy "other-server" (some "SomeTool") = .deny := by
  have h : ∀ sp ∈ onlyThisPolicy.servers, globMatch sp.server "other-server" = false ∧ sp.server ≠ "*" := by
    decide
  exact ⟨h, evaluatePolicy_fail_closed onlyThisPolicy "other-server" (some "SomeTool") h⟩

/-- C2 counterexample: `canonicalize` is *not* the serialization that
preserves every nested entry with sorted keys — on the mapping with the
single entry `a` holding a nested mapping, the replacer-array property
filter drops the nested entry `b` entirely. -/
theorem canonicalize_drops_nested_entries :
    canonicalize nestedMapExample = "\x7b\"a\":\x7b\x7d\x7d" ∧
    canonicalSpecSerialization nestedMapExample = "\x7b\"a\":\x7b\"b\":1\x7d\x7d" ∧
    canonicalize nestedMapExample ≠ canonicalSpecSerialization nestedMapExample := by
  refine ⟨rfl, rfl, ?_⟩
  decide

/-- C9: two distinct policies that differ only inside entries of their
`servers` list give the `AuditLogger` identical `policy_hash` values,
because `canonicalize` filters every nesting level through the top-level
key list, so the server objects serialize with no members at all. -/
theorem policy_hash_ignores_server_contents (sha256 : String → String) (priv pub : String) :
    policyVariantA ≠ policyVariantB ∧
    (mkAuditLogger sha256 priv pub policyVariantA).policyHash =
      (mkAuditLogger sha256 priv pub policyVariantB).policyHash := by
  refine ⟨by decide, ?_⟩
  show sha256 (canonicalize (policyConfigJson policyVariantA)) =
    sha256 (canonicalize (policyConfigJson policyVariantB))
  have h : canonicalize (policyConfigJson policyVariantA) =
      canonicalize (policyConfigJson policyVariantB) := by rfl
  rw [h]
theorem keywords_reject_empty : ∀ kw ∈ DANGEROUS_ARG_KEYWORDS, kw.test "" = false := by
  decide

/-- C6: `RiskEngine.score` returns the base of the first matching
pattern (custom before defaults, else 20), an argument boost equal to
the sum of the boosts of the matching keyword regexes, a behavior boost
of five points per windowed prior event, the clamped final score, the
thresholded level, and it records a behavior event exactly when the
final score reaches the flag threshold (defaults: flag 60, deny 85). -/
theorem riskEngine_score_spec (eng : RiskEngine) (hist : Hist) (now : Int) (toolName : String)
    (argsJson : Option String) (subjectId : String) :
    (riskScoreFn eng hist now toolName argsJson subjectId).1.baseScore =
      (match (eng.customPatterns ++ DEFAULT_TOOL_RISKS).find? (fun p => globMatch p.tool toolName) with
        | some p => p.baseScore
        | none => 20) ∧
    (riskScoreFn eng hist now toolName argsJson subjectId).1.argBoost =
      (match argsJson with
        | none => 0
        | some a => ((DANGEROUS_ARG_KEYWORDS.filter (fun kw => kw.test a)).map
            (fun kw => kw.boost)).sum) ∧
    (riskScoreFn eng hist now toolName argsJson subjectId).1.behaviorBoost =
      (((mapGet hist subjectId).filter
          (fun t => decide (now - eng.thresholds.windowMs < t))).length : Int) * 5 ∧
    (riskScoreFn eng hist now toolName argsJson subjectId).1.score =
      min 100 (max 0 ((riskScoreFn eng hist now toolName argsJson subjectId).1.baseScore +
        (riskScoreFn eng hist now toolName argsJson subjectId).1.argBoost +
        (riskScoreFn eng hist now toolName argsJson subjectId).1.behaviorBoost)) ∧
    (riskScoreFn eng hist now toolName argsJson subjectId).1.level =
      (if (riskScoreFn eng hist now toolName argsJson subjectId).1.score ≥ eng.thresholds.deny then "critical"
       else if (riskScoreFn eng hist now toolName argsJson subjectId).1.score ≥ eng.thresholds.flag then "high"
       else if (riskScoreFn eng hist now toolName argsJson subjectId).1.score ≥ 30 then "medium"
       else "low") ∧
    ((riskScoreFn eng hist now toolName argsJson subjectId).1.score ≥ eng.thresholds.flag →
      mapGet (riskScoreFn eng hist now toolName argsJson subjectId).2 subjectId =
        (mapGet hist subjectId).filter (fun t => decide (now - eng.thresholds.windowMs < t)) ++ [now]) ∧
    ((riskScoreFn eng hist now toolName argsJson subjectId).1.score < eng.thresholds.flag →
      mapGet (riskScoreFn eng hist now toolName argsJson subjectId).2 subjectId =
        (mapGet hist subjectId).filter (fun t => decide (now - eng.thresholds.windowMs < t))) ∧
    DEFAULT_THRESHOLDS = ⟨60, 85, 5, 300000⟩ := by
  have hbeh : (riskScoreFn eng hist now toolName argsJson subjectId).1.behaviorBoost =
      (((mapGet hist subjectId).filter
          (fun t => decide (now - eng.thresholds.windowMs < t))).length : Int) * 5 := by
    show (if ((mapGet hist subjectId).filter (fun t => decide (now - eng.thresholds.windowMs < t))).length > 0
      then (((mapGet hist subjectId).filter (fun t => decide (now - eng.thresholds.windowMs < t))).length : Int) * 5
      else 0) = _
    split
    · rfl
    · rename_i hz
      simp only [Nat.not_lt, Nat.le_zero] at hz
      rw [hz]
      simp
  refine ⟨rfl, ?_, hbeh, rfl, rfl, ?_, ?_, rfl⟩
  · -- argBoost
    match argsJson with
    | none => rfl
    | some a =>
      by_cases ha : a = ""
      · subst ha
        rfl
      · show (if !(a == "") then DANGEROUS_ARG_KEYWORDS.foldl (fun acc kw =>
            if kw.test ((some a).getD "") then
              (acc.1 + kw.boost,
               acc.2 ++ ["argument contains \"" ++ kw.source ++ "\" (+" ++ intToString kw.boost ++ ")"])
            else acc) ((0 : Int), ([] : List String))
          else ((0 : Int), ([] : List String))).1 = _
        rw [if_pos (by simpa using ha)]
        rw [show ((some a).getD "") = a from rfl]
        rw [argFold_fst]
        simp
  · -- recorded when flagged
    intro hflag
    show mapGet (if (riskScoreFn eng hist now toolName argsJson subjectId).1.score ≥ eng.thresholds.flag
      then trackerRecord eng.thresholds.windowMs now
        (pruneInMemory eng.thresholds.windowMs now hist subjectId).2 subjectId
      else (pruneInMemory eng.thresholds.windowMs now hist subjectId).2) subjectId = _
    rw [if_pos hflag]
    rw [trackerRecord]
    rw [mapGet_mapSet_self]
    have hp2 : mapGet (pruneInMemory eng.thresholds.windowMs now hist subjectId).2 subjectId =
        (mapGet hist subjectId).filter (fun t => decide (now - eng.thresholds.windowMs < t)) :=
      pruneInMemory_get _ _ _ _
    have hidem : (pruneInMemory eng.thresholds.windowMs now
        (pruneInMemory eng.thresholds.windowMs now hist subjectId).2 subjectId).1 =
        (mapGet hist subjectId).filter (fun t => decide (now - eng.thresholds.windowMs < t)) := by
      show (mapGet (pruneInMemory eng.thresholds.windowMs now hist subjectId).2 subjectId).filter _ = _
      rw [hp2, List.filter_filter]
      apply List.filter_congr
      intro t _
      simp
    rw [hidem]
  · -- untouched when not flagged
    intro hlow
    show mapGet (if (riskScoreFn eng hist now toolName argsJson subjectId).1.score ≥ eng.thresholds.flag
      then trackerRecord eng.thresholds.windowMs now
        (pruneInMemory eng.thresholds.windowMs now hist subjectId).2 subjectId
      else (pruneInMemory eng.thresholds.windowMs now hist subjectId).2) subjectId = _
    rw [if_neg (by omega)]
    exact pruneInMemory_get _ _ _ _

end Quint
